import Mathlib

/-
Verification development for the shredder garbage collector core
(src/src/collector/mod.rs), shallowly embedded in Lean.

Modelling conventions
- A GcData record (one tracked allocation) carries the list of handle
  unique ids that its traversal thunk (underlying_allocation.scan) yields,
  in scan order; this stands for the type-erased value.
- Arc sharing of GcData and GcHandle objects between the registry sets and
  the interiors of values is modelled by two global object stores
  (gc_datas, gc_handles) keyed by unique_id; the registry sets of the
  TrackedData struct are lists of unique ids into those stores.  Every
  field read or write through an Arc becomes a keyed lookup or update.
- Atomic u64 counters become Nat fields.  Wrapping at 2 to the 64 is
  treated as impossible, as the spec states.
- The lockout module is not under src; following the spec (section 4.1),
  a lockout is identified by a Nat token, a mutator-held shared warrant is
  an external predicate inUse on tokens, and the exclusive acquisition by
  the GC succeeds exactly when no shared warrant is outstanding and the GC
  does not already hold that lockout exclusively.
- The trigger module is not under src; following the spec (section 4.3),
  should_collect is a pure predicate of the recorded baseline and the
  current allocation count, passed in as a parameter trig.
- The dropper is modelled by the queue of Drop messages, in send order.
- The warrants, failed and events fields threaded through do_collect are
  ghost instrumentation: they record which exclusive warrants the phase-1
  loop acquired (the warrants vector of the source), which allocations it
  conservatively marked because acquisition failed, and the temporal order
  of lock and warrant operations.  They do not feed back into the
  collector state.
-/

namespace Shredder

/-- One tracked allocation: struct GcData of the source.  The content field
is the list of handle unique ids the traversal thunk yields. -/
structure GcData where
  unique_id : Nat
  content : List Nat
  lockout : Nat
  deallocated : Bool
  last_marked : Nat
deriving DecidableEq

/-- One outstanding handle: struct GcHandle of the source.  The
underlying_data field is the unique id of the GcData object the Arc points
at. -/
structure GcHandle where
  unique_id : Nat
  underlying_data : Nat
  lockout : Nat
  last_non_rooted : Nat
deriving DecidableEq

/-- The collector state: the Collector struct together with its TrackedData
registry (collection_number, data, handles), the global object stores that
model Arc sharing, the dropper queue, and the trigger baseline. -/
structure CollectorState where
  monotonic_counter : Nat
  next_lockout : Nat
  collection_number : Nat
  gc_datas : List GcData
  gc_handles : List GcHandle
  data : List Nat
  handles : List Nat
  drop_messages : List Nat
  data_count_after_collection : Nat
deriving DecidableEq

/-- Lookup of a GcData object by unique id: dereferencing an Arc, or set
membership by id. -/
def findData (store : List GcData) (i : Nat) : Option GcData :=
  store.find? (fun a => a.unique_id == i)

/-- Lookup of a GcHandle object by unique id. -/
def findHandle (store : List GcHandle) (i : Nat) : Option GcHandle :=
  store.find? (fun h => h.unique_id == i)

/-- Store through an Arc to a GcData object: update the record with the
given unique id. -/
def updData (store : List GcData) (i : Nat) (f : GcData → GcData) : List GcData :=
  store.map (fun a => if a.unique_id == i then f a else a)

/-- Store through an Arc to a GcHandle object. -/
def updHandle (store : List GcHandle) (i : Nat) (f : GcHandle → GcHandle) : List GcHandle :=
  store.map (fun h => if h.unique_id == i then f h else h)

/-- Observable temporal events of the collector, used to state ordering
claims about do_collect and get_data_warrant. -/
inductive GcEvent where
  | phase (n : Nat)
  | acquireRegistryWrite
  | releaseRegistryWrite
  | acquireRegistryRead
  | releaseRegistryRead
  | acquireGcLock
  | releaseGcLock
  | acquireExclusive (lockout : Nat)
  | releaseExclusive (lockout : Nat)
  | acquireShared (lockout : Nat)
  | triggerRecord (n : Nat)
  | panicked
deriving DecidableEq

/-- Result of Collector::get_data_warrant: either the fail-fast abort, or a
shared warrant on the lockout shared by the handle and its allocation. -/
inductive WarrantResult where
  | panicked
  | warrant (lockout : Nat)
deriving DecidableEq

/-- Collector::track_data.  Allocates the value (whose traversal yields
content), creates a fresh lockout, assigns the data id and then the handle
id from the monotonic counter, and inserts the new allocation and the new
handle into the registry.  Returns the new handle object and the data id. -/
def track_data (st : CollectorState) (content : List Nat) :
    CollectorState × GcHandle × Nat :=
  let lockout := st.next_lockout
  let data_id := st.monotonic_counter
  let new_data : GcData :=
    { unique_id := data_id, content := content, lockout := lockout,
      deallocated := false, last_marked := 0 }
  let handle_id := st.monotonic_counter + 1
  let new_handle : GcHandle :=
    { unique_id := handle_id, underlying_data := data_id, lockout := lockout,
      last_non_rooted := 0 }
  ({ st with
      next_lockout := st.next_lockout + 1,
      monotonic_counter := st.monotonic_counter + 2,
      gc_datas := st.gc_datas ++ [new_data],
      data := st.data ++ [data_id],
      gc_handles := st.gc_handles ++ [new_handle],
      handles := st.handles ++ [handle_id] },
   new_handle, data_id)

/-- Collector::drop_handle: under the registry write lock, remove the
handle from the handle set. -/
def drop_handle (st : CollectorState) (h : GcHandle) : CollectorState :=
  { st with handles := st.handles.filter (fun x => x != h.unique_id) }

/-- Collector::clone_handle: under the registry write lock, panic (none) if
the source handle is not in the handle set, otherwise mint a new handle
with a fresh unique id, the same underlying_data and the same lockout, and
insert it. -/
def clone_handle (st : CollectorState) (h : GcHandle) :
    Option (CollectorState × GcHandle) :=
  if st.handles.contains h.unique_id then
    let new_handle : GcHandle :=
      { unique_id := st.monotonic_counter, underlying_data := h.underlying_data,
        lockout := h.lockout, last_non_rooted := 0 }
    some ({ st with
              monotonic_counter := st.monotonic_counter + 1,
              gc_handles := st.gc_handles ++ [new_handle],
              handles := st.handles ++ [new_handle.unique_id] },
          new_handle)
  else
    none

/-- Collector::get_data_warrant: read the deallocated flag of the handle's
allocation without taking the registry lock; panic if it is set, otherwise
acquire a shared warrant from the shared lockout.  The second component is
the event trace of the call. -/
def get_data_warrant (st : CollectorState) (h : GcHandle) :
    WarrantResult × List GcEvent :=
  match findData st.gc_datas h.underlying_data with
  | none =>
      (WarrantResult.panicked, [GcEvent.panicked])
  | some a =>
      if a.deallocated then
        (WarrantResult.panicked, [GcEvent.panicked])
      else
        (WarrantResult.warrant h.lockout, [GcEvent.acquireShared h.lockout])

/-- Mutator action, external to the collector: writing a handle-bearing
value through a warrant-protected reference (for example pushing a cloned
Gc into a RefCell field, as the integration tests do) replaces the list of
handles the allocation's traversal yields. -/
def set_value_content (st : CollectorState) (d : Nat) (content : List Nat) :
    CollectorState :=
  { st with gc_datas := updData st.gc_datas d (fun a => { a with content := content }) }

/-- Accumulator of the phase-1 loop of do_collect: the object stores it
mutates, plus ghost fields, namely the warrants vector of acquired
exclusive warrants, the ids conservatively marked after a failed
acquisition, and the event trace. -/
structure Phase1Acc where
  gc_datas : List GcData
  gc_handles : List GcHandle
  warrants : List Nat
  failed : List Nat
  events : List GcEvent
deriving DecidableEq

/-- The scan callback of phase 1: for every outgoing handle discovered,
store the current collection number into its last_non_rooted field. -/
def stamp_non_rooted (store : List GcHandle) (content : List Nat) (cur : Nat) :
    List GcHandle :=
  content.foldl
    (fun s h => updHandle s h (fun hh => { hh with last_non_rooted := cur }))
    store

/-- One iteration of the phase-1 loop: try to acquire the allocation's
exclusive warrant; on success keep it and stamp every handle its traversal
yields as non-rooted; on failure conservatively store the current
collection number into last_marked. -/
def phase1_step (inUse : Nat → Bool) (cur : Nat) (acc : Phase1Acc) (d : Nat) :
    Phase1Acc :=
  match findData acc.gc_datas d with
  | none => acc
  | some a =>
      if !inUse a.lockout && !acc.warrants.contains a.lockout then
        { acc with
            gc_handles := stamp_non_rooted acc.gc_handles a.content cur,
            warrants := acc.warrants ++ [a.lockout],
            events := acc.events ++ [GcEvent.acquireExclusive a.lockout] }
      else
        { acc with
            gc_datas := updData acc.gc_datas d (fun x => { x with last_marked := cur }),
            failed := acc.failed ++ [d] }

/-- Phase 1 of do_collect: the in-use detection loop over the allocation
set. -/
def phase1 (inUse : Nat → Bool) (cur : Nat) (dataIds : List Nat)
    (ds : List GcData) (hs : List GcHandle) : Phase1Acc :=
  dataIds.foldl (phase1_step inUse cur) ⟨ds, hs, [], [], []⟩

/-- Phase 2 of do_collect: a handle is a root when its last_non_rooted
number is not the current collection number. -/
def roots_of (hs : List GcHandle) (handleIds : List Nat) (cur : Nat) : List Nat :=
  handleIds.filter (fun h =>
    match findHandle hs h with
    | some hh => hh.last_non_rooted != cur
    | none => false)

/-- Phase 3 of do_collect: the mark DFS.  The stack holds handle ids with
the top at the head (the source pushes and pops at the end of a Vec, so the
roots and each scanned content list enter reversed).  Popping a handle
whose allocation is already marked skips it; otherwise the allocation is
marked and the handles its traversal yields are pushed.  The fuel argument
only bounds the recursion; do_collect passes enough for the stack to
empty. -/
def mark_dfs (hs : List GcHandle) (cur : Nat) :
    Nat → List GcData → List Nat → List GcData
  | _, ds, [] => ds
  | 0, ds, _ :: _ => ds
  | fuel + 1, ds, h :: rest =>
      match findHandle hs h with
      | none => mark_dfs hs cur fuel ds rest
      | some hh =>
          match findData ds hh.underlying_data with
          | none => mark_dfs hs cur fuel ds rest
          | some a =>
              if a.last_marked == cur then
                mark_dfs hs cur fuel ds rest
              else
                mark_dfs hs cur fuel
                  (updData ds hh.underlying_data (fun x => { x with last_marked := cur }))
                  (a.content.reverse ++ rest)

/-- Fuel that always suffices for mark_dfs: every pop either shrinks the
stack or marks a previously unmarked allocation, and a marked allocation
pushes its content once. -/
def dfs_fuel (roots : List Nat) (ds : List GcData) : Nat :=
  roots.length + (ds.map (fun a => a.content.length)).sum

/-- Accumulator of the phase-4 retain loop: the ids kept in the allocation
set, the evolving handle set, and the Drop messages sent so far. -/
structure SweepAcc where
  kept : List Nat
  handles : List Nat
  drops : List Nat
deriving DecidableEq

/-- The scan callback of the sweep: remove every handle the dead
allocation's traversal yields from the handle set. -/
def remove_handles (handleIds : List Nat) (content : List Nat) : List Nat :=
  content.foldl (fun hs h => hs.filter (fun x => x != h)) handleIds

/-- One iteration of the phase-4 retain loop: keep the allocation when its
last_marked equals the current collection number; otherwise remove the
handles its traversal yields from the handle set and send it to the drop
thread. -/
def sweep_step (ds : List GcData) (cur : Nat) (acc : SweepAcc) (d : Nat) :
    SweepAcc :=
  match findData ds d with
  | none => acc
  | some a =>
      if a.last_marked == cur then
        { acc with kept := acc.kept ++ [d] }
      else
        { acc with
            handles := remove_handles acc.handles a.content,
            drops := acc.drops ++ [d] }

/-- Phase 4 of do_collect: the retain over the allocation set. -/
def sweep (ds : List GcData) (cur : Nat) (dataIds handleIds : List Nat) :
    SweepAcc :=
  dataIds.foldl (sweep_step ds cur) ⟨[], handleIds, []⟩

/-- Collector::do_collect, entered holding the gc_lock and the registry
write lock.  Increments the collection number, runs phases 1 to 4, updates
the registry, records the post-collection count into the trigger, and
returns the state together with the event trace: the registry write guard
is dropped first, then the trigger record happens, then the gc_lock guard
is dropped, and only then, at the end of the function, the warrants vector
releases the exclusive warrants acquired in phase 1. -/
def do_collect (inUse : Nat → Bool) (st : CollectorState) :
    CollectorState × List GcEvent :=
  let cur := st.collection_number + 1
  let p1 := phase1 inUse cur st.data st.gc_datas st.gc_handles
  let roots := roots_of p1.gc_handles st.handles cur
  let marked := mark_dfs p1.gc_handles cur (dfs_fuel roots p1.gc_datas)
    p1.gc_datas roots.reverse
  let sw := sweep marked cur st.data st.handles
  let st' : CollectorState :=
    { st with
        collection_number := cur,
        gc_datas := marked,
        gc_handles := p1.gc_handles,
        data := sw.kept,
        handles := sw.handles,
        drop_messages := st.drop_messages ++ sw.drops,
        data_count_after_collection := sw.kept.length }
  (st',
   [GcEvent.phase 1] ++ p1.events
     ++ [GcEvent.phase 2, GcEvent.phase 3, GcEvent.phase 4,
         GcEvent.releaseRegistryWrite, GcEvent.triggerRecord sw.kept.length,
         GcEvent.releaseGcLock]
     ++ p1.warrants.map GcEvent.releaseExclusive)

/-- Collector::collect: take the gc_lock and the registry write lock, then
run do_collect. -/
def collect (inUse : Nat → Bool) (st : CollectorState) : CollectorState :=
  (do_collect inUse st).1

/-- Collector::check_then_collect: under the gc_lock, consult the trigger
on the current allocation count; when it indicates a collection, upgrade
the registry lock and run do_collect, returning true; otherwise return
false and leave everything untouched. -/
def check_then_collect (trig : Nat → Nat → Bool) (inUse : Nat → Bool)
    (st : CollectorState) : Bool × CollectorState :=
  if trig st.data_count_after_collection st.data.length then
    (true, (do_collect inUse st).1)
  else
    (false, st)

/-- Collector::tracked_data_count, the live allocation count. -/
def tracked_data_count (st : CollectorState) : Nat :=
  st.data.length

/-- Collector::handle_count. -/
def handle_count (st : CollectorState) : Nat :=
  st.handles.length

/-- Collector::new: empty registry, collection number 1, monotonic counter
starting at 1. -/
def initial_state : CollectorState :=
  { monotonic_counter := 1, next_lockout := 0, collection_number := 1,
    gc_datas := [], gc_handles := [], data := [], handles := [],
    drop_messages := [], data_count_after_collection := 0 }

def DataEvolve (cur : Nat) (ds0 ds : List GcData) : Prop :=
  List.Forall₂ (fun a0 a => a = a0 ∨ a = { a0 with last_marked := cur }) ds0 ds

def HandleEvolve (cur : Nat) (hs0 hs : List GcHandle) : Prop :=
  List.Forall₂ (fun h0 h => h = h0 ∨ h = { h0 with last_non_rooted := cur }) hs0 hs

/-- The two-node cyclic graph of the cyclic-graph scenario, built through
the tracked operations: allocations 1 (node A) and 3 (node B), internal
handles 5 (a clone of the handle to A, stored in B) and 6 (a clone of the
handle to B, stored in A), with both outer handles 2 and 4 dropped. -/
def c3_state : CollectorState :=
  let sA := track_data initial_state []
  let sB := track_data sA.1 []
  let cA := (clone_handle sB.1 sA.2.1).getD (sB.1, sA.2.1)
  let cB := (clone_handle cA.1 sB.2.1).getD (cA.1, sB.2.1)
  let s3 := set_value_content cB.1 sA.2.2 [cB.2.unique_id]
  let s4 := set_value_content s3 sB.2.2 [cA.2.unique_id]
  let s5 := drop_handle s4 sA.2.1
  drop_handle s5 sB.2.1

/-- The in-use-elision scenario: root R (allocation 1, mutator-held handle
2, lockout 0) whose value holds handle 7 to hidden H (allocation 3), and
unreachable decoy D (allocation 5) whose value holds handle 8 to H; the
outer handles 4 (to H) and 6 (to D) have been dropped. -/
def c4_state : CollectorState :=
  let sR := track_data initial_state []
  let sH := track_data sR.1 []
  let sD := track_data sH.1 []
  let c1 := (clone_handle sD.1 sH.2.1).getD (sD.1, sH.2.1)
  let c2 := (clone_handle c1.1 sH.2.1).getD (c1.1, sH.2.1)
  let s1 := set_value_content c2.1 sR.2.2 [c1.2.unique_id]
  let s2 := set_value_content s1 sD.2.2 [c2.2.unique_id]
  let s3 := drop_handle s2 sH.2.1
  drop_handle s3 sD.2.1

/-- The mutator holds a shared warrant on the lockout of R (lockout 0)
during the first collection of the in-use-elision scenario. -/
def c4_in_use : Nat → Bool := fun l => l == 0

/-- The mutator-held handle to R in the in-use-elision scenario. -/
def c4_root_handle : GcHandle :=
  (track_data initial_state []).2.1

/-- A single tracked allocation, used to exhibit the lifetime of the
exclusive warrant the collector acquires for it. -/
def c8_state : CollectorState :=
  (track_data initial_state []).1

/-- A state in which the dropper has already processed allocation 1: the
allocation was removed from the registry and its deallocated flag was set
before its destructor ran, while a stale handle object 2 still points at
it. -/
def c5_dangling_state : CollectorState :=
  { monotonic_counter := 3, next_lockout := 1, collection_number := 2,
    gc_datas := [{ unique_id := 1, content := [], lockout := 0,
                   deallocated := true, last_marked := 0 }],
    gc_handles := [{ unique_id := 2, underlying_data := 1, lockout := 0,
                     last_non_rooted := 0 }],
    data := [], handles := [], drop_messages := [1],
    data_count_after_collection := 0 }

/-- The stale handle of the dangling-access state. -/
def c5_dangling_handle : GcHandle :=
  { unique_id := 2, underlying_data := 1, lockout := 0, last_non_rooted := 0 }

/-- The allocation record of the dangling-access state. -/
def c5_dangling_data : GcData :=
  { unique_id := 1, content := [], lockout := 0, deallocated := true,
    last_marked := 0 }

/-- A one-allocation self loop used as a sweep witness: allocation 1 holds
handle 3 (a clone of its own outer handle), and the outer handle 2 has been
dropped, so the allocation is dead. -/
def c2_w_state : CollectorState :=
  let s1 := track_data initial_state []
  let c1 := (clone_handle s1.1 s1.2.1).getD (s1.1, s1.2.1)
  let s2 := set_value_content c1.1 s1.2.2 [c1.2.unique_id]
  drop_handle s2 s1.2.1

/-- The record of allocation 1 in the self-loop state. -/
def c2_w_data : GcData :=
  { unique_id := 1, content := [3], lockout := 0, deallocated := false,
    last_marked := 0 }

/-- Iterated cloning of one handle: perform clone_handle n times on the
same source handle, returning the final state and the minted handles in
order.  A panic of any clone aborts the whole run. -/
def clone_n (st : CollectorState) (h : GcHandle) :
    Nat → Option (CollectorState × List GcHandle)
  | 0 => some (st, [])
  | n + 1 =>
      match clone_handle st h with
      | none => none
      | some (st', h') =>
          match clone_n st' h n with
          | none => none
          | some (st'', hs) => some (st'', h' :: hs)

/-- The one-allocation state used to witness the clone and drop round
trip. -/
def c7_w_state : CollectorState :=
  (track_data initial_state []).1

/-- The registered handle of the round-trip witness state. -/
def c7_w_handle : GcHandle :=
  (track_data initial_state []).2.1

/-- The one-allocation state used to witness the counter monotonicity. -/
def c6_w_state : CollectorState :=
  (track_data initial_state []).1

/-- The registered handle of the monotonicity witness state. -/
def c6_w_handle : GcHandle :=
  (track_data initial_state []).2.1

/-- The record of allocation 1 before the witness collection. -/
def c6_w_data_before : GcData :=
  { unique_id := 1, content := [], lockout := 0, deallocated := false,
    last_marked := 0 }

/-- The record of allocation 1 after the witness collection. -/
def c6_w_data_after : GcData :=
  { unique_id := 1, content := [], lockout := 0, deallocated := false,
    last_marked := 2 }

/-- Transitive reachability of handles through the traversal thunks: a
handle is reachable when it is one of the given roots, or when it is
discovered by the traversal of the allocation some reachable handle points
at. -/
inductive ReachableHandle (ds : List GcData) (hs : List GcHandle)
    (roots : List Nat) : Nat → Prop where
  | root (h : Nat) : h ∈ roots → ReachableHandle ds hs roots h
  | through (h : Nat) (hh : GcHandle) (a : GcData) (h2 : Nat) :
      ReachableHandle ds hs roots h →
      findHandle hs h = some hh →
      findData ds hh.underlying_data = some a →
      h2 ∈ a.content →
      ReachableHandle ds hs roots h2

/-- An allocation is reachable when some reachable handle points at it. -/
def ReachesAllocation (ds : List GcData) (hs : List GcHandle)
    (roots : List Nat) (d : Nat) : Prop :=
  ∃ h hh, ReachableHandle ds hs roots h ∧ findHandle hs h = some hh ∧
    hh.underlying_data = d

/-- The one-allocation state used to witness the liveness claim. -/
def c1_w_state : CollectorState :=
  (track_data initial_state []).1

/-! Basic lemmas about the keyed object stores. -/

theorem findData_beq {ds : List GcData} {j : Nat} {a : GcData}
    (h : findData ds j = some a) : a.unique_id = j := by
  have := List.find?_some h
  simpa using this

theorem findHandle_beq {hs : List GcHandle} {j : Nat} {hh : GcHandle}
    (h : findHandle hs j = some hh) : hh.unique_id = j := by
  have := List.find?_some h
  simpa using this

theorem findData_updData (ds : List GcData) (i j : Nat) (f : GcData → GcData)
    (hf : ∀ a, (f a).unique_id = a.unique_id) :
    findData (updData ds i f) j =
      (findData ds j).map (fun a => if a.unique_id == i then f a else a) := by
  induction ds with
  | nil => rfl
  | cons a t ih =>
      have huid : (if a.unique_id == i then f a else a).unique_id = a.unique_id := by
        by_cases h : a.unique_id == i
        · simp [h, hf]
        · simp [h]
      show List.find? _ ((if a.unique_id == i then f a else a) :: updData t i f) = _
      cases hpa : (a.unique_id == j) with
      | true =>
          have hpa' : ((if a.unique_id == i then f a else a).unique_id == j) = true := by
            rw [huid]; exact hpa
          rw [List.find?_cons_of_pos (p := fun (b : GcData) => b.unique_id == j) _ hpa']
          unfold findData
          rw [List.find?_cons_of_pos (p := fun (b : GcData) => b.unique_id == j) _ hpa]
          rfl
      | false =>
          have hpa' : ¬ ((if a.unique_id == i then f a else a).unique_id == j) := by
            rw [huid, hpa]; exact Bool.false_ne_true
          rw [List.find?_cons_of_neg (p := fun (b : GcData) => b.unique_id == j) _ hpa']
          unfold findData
          rw [List.find?_cons_of_neg (p := fun (b : GcData) => b.unique_id == j) _
            (by show ¬ (a.unique_id == j) = true; rw [hpa]; exact Bool.false_ne_true)]
          exact ih

theorem findHandle_updHandle (hs : List GcHandle) (i j : Nat) (f : GcHandle → GcHandle)
    (hf : ∀ h, (f h).unique_id = h.unique_id) :
    findHandle (updHandle hs i f) j =
      (findHandle hs j).map (fun h => if h.unique_id == i then f h else h) := by
  induction hs with
  | nil => rfl
  | cons a t ih =>
      have huid : (if a.unique_id == i then f a else a).unique_id = a.unique_id := by
        by_cases h : a.unique_id == i
        · simp [h, hf]
        · simp [h]
      show List.find? _ ((if a.unique_id == i then f a else a) :: updHandle t i f) = _
      cases hpa : (a.unique_id == j) with
      | true =>
          have hpa' : ((if a.unique_id == i then f a else a).unique_id == j) = true := by
            rw [huid]; exact hpa
          rw [List.find?_cons_of_pos (p := fun (b : GcHandle) => b.unique_id == j) _ hpa']
          unfold findHandle
          rw [List.find?_cons_of_pos (p := fun (b : GcHandle) => b.unique_id == j) _ hpa]
          rfl
      | false =>
          have hpa' : ¬ ((if a.unique_id == i then f a else a).unique_id == j) := by
            rw [huid, hpa]; exact Bool.false_ne_true
          rw [List.find?_cons_of_neg (p := fun (b : GcHandle) => b.unique_id == j) _ hpa']
          unfold findHandle
          rw [List.find?_cons_of_neg (p := fun (b : GcHandle) => b.unique_id == j) _
            (by show ¬ (a.unique_id == j) = true; rw [hpa]; exact Bool.false_ne_true)]
          exact ih

/-! Evolution relations: during a collection, an allocation record can only
have its last_marked field overwritten with the current collection number,
and a handle record its last_non_rooted field.  These relations connect the
object stores across the phases of do_collect. -/

theorem dataEvolve_refl (cur : Nat) (ds : List GcData) : DataEvolve cur ds ds := by
  induction ds with
  | nil => exact List.Forall₂.nil
  | cons a t ih => exact List.Forall₂.cons (Or.inl rfl) ih

theorem handleEvolve_refl (cur : Nat) (hs : List GcHandle) : HandleEvolve cur hs hs := by
  induction hs with
  | nil => exact List.Forall₂.nil
  | cons a t ih => exact List.Forall₂.cons (Or.inl rfl) ih

theorem dataEvolve_trans {cur : Nat} {ds0 ds1 ds2 : List GcData}
    (h1 : DataEvolve cur ds0 ds1) (h2 : DataEvolve cur ds1 ds2) :
    DataEvolve cur ds0 ds2 := by
  induction h1 generalizing ds2 with
  | nil => cases h2; exact List.Forall₂.nil
  | cons rel tail ih =>
      cases h2 with
      | cons rel2 tail2 =>
          refine List.Forall₂.cons ?_ (ih tail2)
          rcases rel with rfl | rfl
          · exact rel2
          · rcases rel2 with rfl | rfl
            · exact Or.inr rfl
            · exact Or.inr rfl

theorem handleEvolve_trans {cur : Nat} {hs0 hs1 hs2 : List GcHandle}
    (h1 : HandleEvolve cur hs0 hs1) (h2 : HandleEvolve cur hs1 hs2) :
    HandleEvolve cur hs0 hs2 := by
  induction h1 generalizing hs2 with
  | nil => cases h2; exact List.Forall₂.nil
  | cons rel tail ih =>
      cases h2 with
      | cons rel2 tail2 =>
          refine List.Forall₂.cons ?_ (ih tail2)
          rcases rel with rfl | rfl
          · exact rel2
          · rcases rel2 with rfl | rfl
            · exact Or.inr rfl
            · exact Or.inr rfl

theorem dataEvolve_upd (cur : Nat) (ds : List GcData) (i : Nat) :
    DataEvolve cur ds (updData ds i (fun x => { x with last_marked := cur })) := by
  induction ds with
  | nil => exact List.Forall₂.nil
  | cons a t ih =>
      refine List.Forall₂.cons ?_ ih
      by_cases h : a.unique_id == i
      · simp [h]
      · simp [h]

theorem handleEvolve_upd (cur : Nat) (hs : List GcHandle) (i : Nat) :
    HandleEvolve cur hs (updHandle hs i (fun x => { x with last_non_rooted := cur })) := by
  induction hs with
  | nil => exact List.Forall₂.nil
  | cons a t ih =>
      refine List.Forall₂.cons ?_ ih
      by_cases h : a.unique_id == i
      · simp [h]
      · simp [h]

theorem handleEvolve_stamp (cur : Nat) (hs : List GcHandle) (c : List Nat) :
    HandleEvolve cur hs (stamp_non_rooted hs c cur) := by
  induction c generalizing hs with
  | nil => exact handleEvolve_refl cur hs
  | cons h t ih =>
      exact handleEvolve_trans (handleEvolve_upd cur hs h) (ih _)

theorem dataEvolve_find {cur : Nat} {ds0 ds : List GcData}
    (h : DataEvolve cur ds0 ds) (j : Nat) :
    (findData ds0 j = none ∧ findData ds j = none) ∨
    ∃ a0 a, findData ds0 j = some a0 ∧ findData ds j = some a ∧
      a.unique_id = a0.unique_id ∧ a.content = a0.content ∧
      a.lockout = a0.lockout ∧ a.deallocated = a0.deallocated ∧
      (a.last_marked = a0.last_marked ∨ a.last_marked = cur) := by
  induction h with
  | nil => exact Or.inl ⟨rfl, rfl⟩
  | @cons a0 a t0 t rel tail ih =>
      have huid : a.unique_id = a0.unique_id := by
        rcases rel with rfl | rfl <;> rfl
      by_cases hj : a0.unique_id == j
      · refine Or.inr ⟨a0, a, ?_, ?_, huid, ?_, ?_, ?_, ?_⟩
        · simp [findData, List.find?_cons, hj]
        · simp [findData, List.find?_cons, huid, hj]
        · rcases rel with rfl | rfl <;> rfl
        · rcases rel with rfl | rfl <;> rfl
        · rcases rel with rfl | rfl <;> rfl
        · rcases rel with rfl | rfl
          · exact Or.inl rfl
          · exact Or.inr rfl
      · have h1 : findData (a0 :: t0) j = findData t0 j := by
          simp [findData, List.find?_cons, hj]
        have h2 : findData (a :: t) j = findData t j := by
          simp [findData, List.find?_cons, huid, hj]
        rw [h1, h2]
        exact ih

theorem handleEvolve_find {cur : Nat} {hs0 hs : List GcHandle}
    (h : HandleEvolve cur hs0 hs) (j : Nat) :
    (findHandle hs0 j = none ∧ findHandle hs j = none) ∨
    ∃ h0 hh, findHandle hs0 j = some h0 ∧ findHandle hs j = some hh ∧
      hh.unique_id = h0.unique_id ∧ hh.underlying_data = h0.underlying_data ∧
      hh.lockout = h0.lockout ∧
      (hh.last_non_rooted = h0.last_non_rooted ∨ hh.last_non_rooted = cur) := by
  induction h with
  | nil => exact Or.inl ⟨rfl, rfl⟩
  | @cons h0 hh t0 t rel tail ih =>
      have huid : hh.unique_id = h0.unique_id := by
        rcases rel with rfl | rfl <;> rfl
      by_cases hj : h0.unique_id == j
      · refine Or.inr ⟨h0, hh, ?_, ?_, huid, ?_, ?_, ?_⟩
        · simp [findHandle, List.find?_cons, hj]
        · simp [findHandle, List.find?_cons, huid, hj]
        · rcases rel with rfl | rfl <;> rfl
        · rcases rel with rfl | rfl <;> rfl
        · rcases rel with rfl | rfl
          · exact Or.inl rfl
          · exact Or.inr rfl
      · have h1 : findHandle (h0 :: t0) j = findHandle t0 j := by
          simp [findHandle, List.find?_cons, hj]
        have h2 : findHandle (hh :: t) j = findHandle t j := by
          simp [findHandle, List.find?_cons, huid, hj]
        rw [h1, h2]
        exact ih

theorem dataEvolve_mem_right {cur : Nat} {ds0 ds : List GcData}
    (h : DataEvolve cur ds0 ds) :
    ∀ a ∈ ds, ∃ a0 ∈ ds0, a = a0 ∨ a = { a0 with last_marked := cur } := by
  induction h with
  | nil => intro a ha; cases ha
  | cons rel tail ih =>
      intro a ha
      rcases List.mem_cons.mp ha with rfl | ha'
      · exact ⟨_, List.mem_cons_self _ _, rel⟩
      · obtain ⟨a0, ha0, hrel⟩ := ih a ha'
        exact ⟨a0, List.mem_cons_of_mem _ ha0, hrel⟩

theorem handleEvolve_mem_right {cur : Nat} {hs0 hs : List GcHandle}
    (h : HandleEvolve cur hs0 hs) :
    ∀ a ∈ hs, ∃ a0 ∈ hs0, a = a0 ∨ a = { a0 with last_non_rooted := cur } := by
  induction h with
  | nil => intro a ha; cases ha
  | cons rel tail ih =>
      intro a ha
      rcases List.mem_cons.mp ha with rfl | ha'
      · exact ⟨_, List.mem_cons_self _ _, rel⟩
      · obtain ⟨a0, ha0, hrel⟩ := ih a ha'
        exact ⟨a0, List.mem_cons_of_mem _ ha0, hrel⟩

/-! Lemmas about the phase-1 loop. -/

theorem phase1_failed_mono (inUse : Nat → Bool) (cur : Nat) :
    ∀ (ds : List Nat) (acc : Phase1Acc) (x : Nat), x ∈ acc.failed →
      x ∈ (ds.foldl (phase1_step inUse cur) acc).failed := by
  intro ds
  induction ds with
  | nil => intro acc x hx; simpa using hx
  | cons d t ih =>
      intro acc x hx
      rw [List.foldl_cons]
      apply ih
      unfold phase1_step
      split
      · exact hx
      · split
        · exact hx
        · exact List.mem_append_left _ hx

theorem phase1_warrants_mono (inUse : Nat → Bool) (cur : Nat) :
    ∀ (ds : List Nat) (acc : Phase1Acc) (x : Nat), x ∈ acc.warrants →
      x ∈ (ds.foldl (phase1_step inUse cur) acc).warrants := by
  intro ds
  induction ds with
  | nil => intro acc x hx; simpa using hx
  | cons d t ih =>
      intro acc x hx
      rw [List.foldl_cons]
      apply ih
      unfold phase1_step
      split
      · exact hx
      · split
        · exact List.mem_append_left _ hx
        · exact hx

theorem phase1_events_shape (inUse : Nat → Bool) (cur : Nat) :
    ∀ (ds : List Nat) (acc : Phase1Acc),
      (∀ e ∈ acc.events, ∃ L, e = GcEvent.acquireExclusive L) →
      ∀ e ∈ (ds.foldl (phase1_step inUse cur) acc).events,
        ∃ L, e = GcEvent.acquireExclusive L := by
  intro ds
  induction ds with
  | nil => intro acc hacc; simpa using hacc
  | cons d t ih =>
      intro acc hacc
      rw [List.foldl_cons]
      apply ih
      unfold phase1_step
      split
      · exact hacc
      · next a _ =>
          split
          · intro e he
            rcases List.mem_append.mp he with he' | he'
            · exact hacc e he'
            · refine ⟨a.lockout, ?_⟩
              simpa using he'
          · exact hacc

theorem phase1_step_evolve (inUse : Nat → Bool) (cur : Nat) (acc : Phase1Acc) (d : Nat) :
    DataEvolve cur acc.gc_datas (phase1_step inUse cur acc d).gc_datas ∧
    HandleEvolve cur acc.gc_handles (phase1_step inUse cur acc d).gc_handles := by
  unfold phase1_step
  split
  · exact ⟨dataEvolve_refl cur _, handleEvolve_refl cur _⟩
  · split
    · exact ⟨dataEvolve_refl cur _, handleEvolve_stamp cur _ _⟩
    · exact ⟨dataEvolve_upd cur _ _, handleEvolve_refl cur _⟩

theorem phase1_evolve (inUse : Nat → Bool) (cur : Nat) :
    ∀ (ds : List Nat) (acc : Phase1Acc),
      DataEvolve cur acc.gc_datas (ds.foldl (phase1_step inUse cur) acc).gc_datas ∧
      HandleEvolve cur acc.gc_handles (ds.foldl (phase1_step inUse cur) acc).gc_handles := by
  intro ds
  induction ds with
  | nil =>
      intro acc
      exact ⟨dataEvolve_refl cur _, handleEvolve_refl cur _⟩
  | cons d t ih =>
      intro acc
      rw [List.foldl_cons]
      obtain ⟨hd1, hh1⟩ := phase1_step_evolve inUse cur acc d
      obtain ⟨hd2, hh2⟩ := ih (phase1_step inUse cur acc d)
      exact ⟨dataEvolve_trans hd1 hd2, handleEvolve_trans hh1 hh2⟩

theorem phase1_step_find (inUse : Nat → Bool) (cur : Nat) (acc : Phase1Acc)
    (d j : Nat) :
    findData (phase1_step inUse cur acc d).gc_datas j = findData acc.gc_datas j ∨
    (findData (phase1_step inUse cur acc d).gc_datas j =
      (findData acc.gc_datas j).map
        (fun x => if x.unique_id == d then { x with last_marked := cur } else x) ∧
     d ∈ (phase1_step inUse cur acc d).failed) := by
  unfold phase1_step
  split
  · exact Or.inl rfl
  · split
    · exact Or.inl rfl
    · right
      refine ⟨findData_updData _ _ _ _ (fun x => rfl), ?_⟩
      simp

theorem phase1_marked_stable (inUse : Nat → Bool) (cur : Nat) :
    ∀ (ds : List Nat) (acc : Phase1Acc) (j : Nat) (b : GcData),
      findData acc.gc_datas j = some b → b.last_marked = cur →
      findData (ds.foldl (phase1_step inUse cur) acc).gc_datas j = some b := by
  intro ds
  induction ds with
  | nil => intro acc j b hfb _; simpa using hfb
  | cons d t ih =>
      intro acc j b hfb hlm
      rw [List.foldl_cons]
      apply ih _ _ _ _ hlm
      rcases phase1_step_find inUse cur acc d j with heq | ⟨heq, _⟩
      · rw [heq]; exact hfb
      · rw [heq, hfb, Option.map_some']
        by_cases hbd : (b.unique_id == d) = true
        · have hb : { b with last_marked := cur } = b := by
            cases b
            simp_all
          rw [if_pos hbd, hb]
        · rw [if_neg hbd]

theorem phase1_marked (inUse : Nat → Bool) (cur : Nat) :
    ∀ (ds : List Nat) (acc : Phase1Acc) (j : Nat) (a' : GcData),
      findData (ds.foldl (phase1_step inUse cur) acc).gc_datas j = some a' →
      a'.last_marked = cur →
      (∃ a, findData acc.gc_datas j = some a ∧ a.last_marked = cur) ∨
        j ∈ (ds.foldl (phase1_step inUse cur) acc).failed := by
  intro ds
  induction ds with
  | nil =>
      intro acc j a' hfind hlm
      exact Or.inl ⟨a', by simpa using hfind, hlm⟩
  | cons d t ih =>
      intro acc j a' hfind hlm
      rw [List.foldl_cons] at hfind ⊢
      rcases ih _ j a' hfind hlm with ⟨a, hfa, hlma⟩ | hfail
      · rcases phase1_step_find inUse cur acc d j with heq | ⟨heq, hdf⟩
        · rw [heq] at hfa; exact Or.inl ⟨a, hfa, hlma⟩
        · rw [heq] at hfa
          cases hfj : findData acc.gc_datas j with
          | none => rw [hfj] at hfa; cases hfa
          | some c =>
              rw [hfj, Option.map_some'] at hfa
              by_cases hcd : (c.unique_id == d) = true
              · have hcj : c.unique_id = j := findData_beq hfj
                have hjd : j = d := by
                  rw [← hcj]
                  exact eq_of_beq hcd
                subst hjd
                exact Or.inr (phase1_failed_mono inUse cur t _ _ hdf)
              · rw [if_neg hcd] at hfa
                have hca : c = a := Option.some.inj hfa
                have hlc : c.last_marked = cur := by rw [hca]; exact hlma
                exact Or.inl ⟨c, rfl, hlc⟩
      · exact Or.inr hfail

theorem phase1_inuse (inUse : Nat → Bool) (cur : Nat) :
    ∀ (ds : List Nat) (acc : Phase1Acc) (d : Nat) (a : GcData),
      d ∈ ds → findData acc.gc_datas d = some a → inUse a.lockout = true →
      d ∈ (ds.foldl (phase1_step inUse cur) acc).failed ∧
      findData (ds.foldl (phase1_step inUse cur) acc).gc_datas d =
        some { a with last_marked := cur } := by
  intro ds
  induction ds with
  | nil => intro acc d a hd; cases hd
  | cons d0 t ih =>
      intro acc d a hd hfa hiu
      rw [List.foldl_cons]
      rcases List.mem_cons.mp hd with rfl | hd'
      · have hstep_failed : d ∈ (phase1_step inUse cur acc d).failed := by
          unfold phase1_step
          split
          · next heq => rw [hfa] at heq; cases heq
          · next aa heq =>
              rw [hfa] at heq
              have haa : a = aa := Option.some.inj heq
              subst haa
              split
              · next hw =>
                  exfalso
                  rw [hiu] at hw
                  simp at hw
              · simp
        have hstep_find : findData (phase1_step inUse cur acc d).gc_datas d =
            some { a with last_marked := cur } := by
          unfold phase1_step
          split
          · next heq => rw [hfa] at heq; cases heq
          · next aa heq =>
              rw [hfa] at heq
              have haa : a = aa := Option.some.inj heq
              subst haa
              split
              · next hw =>
                  exfalso
                  rw [hiu] at hw
                  simp at hw
              · show findData (updData acc.gc_datas d
                    (fun x => { x with last_marked := cur })) d = _
                rw [findData_updData acc.gc_datas d d
                    (fun x => { x with last_marked := cur }) (fun x => rfl),
                  hfa, Option.map_some']
                have hbe : (a.unique_id == d) = true := by
                  have := findData_beq hfa
                  simp [this]
                rw [if_pos hbe]
        exact ⟨phase1_failed_mono inUse cur t _ _ hstep_failed,
               phase1_marked_stable inUse cur t _ _ _ hstep_find rfl⟩
      · rcases phase1_step_find inUse cur acc d0 d with heq | ⟨heq, _⟩
        · exact ih _ _ _ hd' (by rw [heq]; exact hfa) hiu
        · have hfa' : findData (phase1_step inUse cur acc d0).gc_datas d =
              some (if (a.unique_id == d0) = true
                then { a with last_marked := cur } else a) := by
            rw [heq, hfa, Option.map_some']
          by_cases had : (a.unique_id == d0) = true
          · rw [if_pos had] at hfa'
            exact ih _ d { a with last_marked := cur } hd' hfa' hiu
          · rw [if_neg had] at hfa'
            exact ih _ _ _ hd' hfa' hiu

theorem findHandle_stamp (hs : List GcHandle) (c : List Nat) (cur : Nat) (i : Nat) :
    findHandle (stamp_non_rooted hs c cur) i =
      (findHandle hs i).map
        (fun hh => if i ∈ c then { hh with last_non_rooted := cur } else hh) := by
  induction c generalizing hs with
  | nil =>
      show findHandle hs i = _
      cases findHandle hs i <;> simp
  | cons h0 t ih =>
      show findHandle
        (stamp_non_rooted
          (updHandle hs h0 (fun hh => { hh with last_non_rooted := cur })) t cur) i = _
      rw [ih, findHandle_updHandle hs h0 i
        (fun hh => { hh with last_non_rooted := cur }) (fun x => rfl)]
      cases hfi : findHandle hs i with
      | none => simp
      | some hh =>
          have huid : hh.unique_id = i := findHandle_beq hfi
          cases hh with
          | mk u ud l lnr =>
              simp only at huid
              subst huid
              by_cases h1 : u = h0 <;> by_cases h2 : u ∈ t <;>
                simp [List.mem_cons, h1, h2]

theorem phase1_step_find_handle (inUse : Nat → Bool) (cur : Nat) (acc : Phase1Acc)
    (d j : Nat) :
    findHandle (phase1_step inUse cur acc d).gc_handles j = findHandle acc.gc_handles j ∨
    ∃ a, findData acc.gc_datas d = some a ∧
      a.lockout ∈ (phase1_step inUse cur acc d).warrants ∧
      findHandle (phase1_step inUse cur acc d).gc_handles j =
        (findHandle acc.gc_handles j).map
          (fun hh => if j ∈ a.content then { hh with last_non_rooted := cur } else hh) ∧
      (phase1_step inUse cur acc d).gc_datas = acc.gc_datas := by
  unfold phase1_step
  split
  · exact Or.inl rfl
  · next a heq =>
      split
      · right
        exact ⟨a, heq, List.mem_append_right _ (by simp),
          findHandle_stamp _ _ _ _, rfl⟩
      · exact Or.inl rfl

theorem phase1_stamp_source (inUse : Nat → Bool) (cur : Nat) :
    ∀ (ds : List Nat) (acc : Phase1Acc) (i : Nat) (hh hh' : GcHandle),
      findHandle acc.gc_handles i = some hh →
      findHandle (ds.foldl (phase1_step inUse cur) acc).gc_handles i = some hh' →
      hh' ≠ hh →
      hh' = { hh with last_non_rooted := cur } ∧
      ∃ d a, d ∈ ds ∧ findData acc.gc_datas d = some a ∧ i ∈ a.content ∧
        a.lockout ∈ (ds.foldl (phase1_step inUse cur) acc).warrants := by
  intro ds
  induction ds with
  | nil =>
      intro acc i hh hh' hfh hfh' hne
      rw [List.foldl_nil] at hfh'
      rw [hfh] at hfh'
      exact absurd (Option.some.inj hfh').symm hne
  | cons d0 t ih =>
      intro acc i hh hh' hfh hfh' hne
      rw [List.foldl_cons] at hfh' ⊢
      rcases phase1_step_find_handle inUse cur acc d0 i with heq | ⟨a, hfd, hlw, heq, hds⟩
      · have hfh2 : findHandle (phase1_step inUse cur acc d0).gc_handles i = some hh := by
          rw [heq]; exact hfh
        obtain ⟨h1, d, b, hdmem, hfb, hic, hlkw⟩ := ih _ i hh hh' hfh2 hfh' hne
        rcases phase1_step_find inUse cur acc d0 d with heq2 | ⟨heq2, _⟩
        · refine ⟨h1, d, b, List.mem_cons_of_mem _ hdmem, ?_, hic, hlkw⟩
          rw [← heq2]; exact hfb
        · rw [heq2] at hfb
          cases hfc : findData acc.gc_datas d with
          | none => rw [hfc] at hfb; cases hfb
          | some c =>
              rw [hfc, Option.map_some'] at hfb
              by_cases hcd : (c.unique_id == d0) = true
              · rw [if_pos hcd] at hfb
                have hbc : { c with last_marked := cur } = b := Option.some.inj hfb
                have hic' : i ∈ c.content := by
                  rw [← hbc] at hic
                  exact hic
                have hlk : c.lockout ∈
                    (t.foldl (phase1_step inUse cur) (phase1_step inUse cur acc d0)).warrants := by
                  have : c.lockout = b.lockout := by rw [← hbc]
                  rw [this]; exact hlkw
                exact ⟨h1, d, c, List.mem_cons_of_mem _ hdmem, hfc, hic', hlk⟩
              · rw [if_neg hcd] at hfb
                have hbc : c = b := Option.some.inj hfb
                have hic' : i ∈ c.content := by rw [hbc]; exact hic
                have hlk : c.lockout ∈
                    (t.foldl (phase1_step inUse cur) (phase1_step inUse cur acc d0)).warrants := by
                  rw [hbc]; exact hlkw
                exact ⟨h1, d, c, List.mem_cons_of_mem _ hdmem, hfc, hic', hlk⟩
      · have hfh2 : findHandle (phase1_step inUse cur acc d0).gc_handles i =
            some (if i ∈ a.content then { hh with last_non_rooted := cur } else hh) := by
          rw [heq, hfh, Option.map_some']
      -- either the handle slot was stamped here or left alone
        by_cases hic : i ∈ a.content
        · rw [if_pos hic] at hfh2
          by_cases hne2 : hh' = { hh with last_non_rooted := cur }
          · refine ⟨hne2, d0, a, List.mem_cons_self _ _, hfd, hic,
              phase1_warrants_mono inUse cur t _ _ hlw⟩
          · obtain ⟨h1, _⟩ := ih _ i { hh with last_non_rooted := cur } hh' hfh2 hfh' hne2
            exact absurd h1 hne2
        · rw [if_neg hic] at hfh2
          obtain ⟨h1, d, b, hdmem, hfb, hicb, hlkw⟩ := ih _ i hh hh' hfh2 hfh' hne
          rw [hds] at hfb
          exact ⟨h1, d, b, List.mem_cons_of_mem _ hdmem, hfb, hicb, hlkw⟩

/-! Lemmas about the phase-3 mark DFS. -/

theorem mark_dfs_evolve (hs : List GcHandle) (cur : Nat) :
    ∀ (fuel : Nat) (ds : List GcData) (stack : List Nat),
      DataEvolve cur ds (mark_dfs hs cur fuel ds stack) := by
  intro fuel
  induction fuel with
  | zero =>
      intro ds stack
      cases stack with
      | nil => exact dataEvolve_refl cur ds
      | cons h rest => exact dataEvolve_refl cur ds
  | succ fuel ih =>
      intro ds stack
      cases stack with
      | nil => exact dataEvolve_refl cur ds
      | cons h rest =>
          simp only [mark_dfs]
          split
          · exact ih ds rest
          · next hh hfh =>
              split
              · exact ih ds rest
              · next a hfa =>
                  split
                  · exact ih ds rest
                  · exact dataEvolve_trans
                      (dataEvolve_upd cur ds hh.underlying_data) (ih _ _)

theorem mark_dfs_marks (hs : List GcHandle) (cur : Nat) (G : Nat → Prop)
    (ds0 : List GcData)
    (Gclosed : ∀ h hh a h2, G h → findHandle hs h = some hh →
      findData ds0 hh.underlying_data = some a → h2 ∈ a.content → G h2) :
    ∀ (fuel : Nat) (ds : List GcData) (stack : List Nat),
      DataEvolve cur ds0 ds →
      (∀ h ∈ stack, G h) →
      ∀ (j : Nat) (a' : GcData),
        findData (mark_dfs hs cur fuel ds stack) j = some a' →
        a'.last_marked = cur →
        (∃ a, findData ds j = some a ∧ a.last_marked = cur) ∨
        (∃ h hh, G h ∧ findHandle hs h = some hh ∧ hh.underlying_data = j) := by
  intro fuel
  induction fuel with
  | zero =>
      intro ds stack hev hstack j a' hfind hlm
      cases stack with
      | nil =>
          simp only [mark_dfs] at hfind
          exact Or.inl ⟨a', hfind, hlm⟩
      | cons h rest =>
          simp only [mark_dfs] at hfind
          exact Or.inl ⟨a', hfind, hlm⟩
  | succ fuel ih =>
      intro ds stack hev hstack j a' hfind hlm
      cases stack with
      | nil =>
          simp only [mark_dfs] at hfind
          exact Or.inl ⟨a', hfind, hlm⟩
      | cons h rest =>
          have htail : ∀ x ∈ rest, G x :=
            fun x hx => hstack x (List.mem_cons_of_mem _ hx)
          simp only [mark_dfs] at hfind
          split at hfind
          · exact ih ds rest hev htail j a' hfind hlm
          · next hh hfh =>
              split at hfind
              · exact ih ds rest hev htail j a' hfind hlm
              · next a hfa =>
                  split at hfind
                  · exact ih ds rest hev htail j a' hfind hlm
                  · have hGh : G h := hstack h (List.mem_cons_self _ _)
                    rcases dataEvolve_find hev hh.underlying_data with
                      ⟨_, hnone2⟩ | ⟨a0, a1, hf0, hf1, _, hcont, _, _, _⟩
                    · rw [hfa] at hnone2; cases hnone2
                    · have ha1 : a = a1 := by
                        rw [hf1] at hfa; exact (Option.some.inj hfa).symm
                      subst ha1
                      have hstack' : ∀ x ∈ a.content.reverse ++ rest, G x := by
                        intro x hx
                        rcases List.mem_append.mp hx with hx' | hx'
                        · have hxc : x ∈ a.content := List.mem_reverse.mp hx'
                          rw [hcont] at hxc
                          exact Gclosed h hh a0 x hGh hfh hf0 hxc
                        · exact htail x hx'
                      have hev' : DataEvolve cur ds0
                          (updData ds hh.underlying_data
                            (fun x => { x with last_marked := cur })) :=
                        dataEvolve_trans hev (dataEvolve_upd cur ds hh.underlying_data)
                      rcases ih _ _ hev' hstack' j a' hfind hlm with ⟨b, hfb, hlb⟩ | hreach
                      · rw [findData_updData ds hh.underlying_data j
                          (fun x => { x with last_marked := cur }) (fun x => rfl)] at hfb
                        cases hfj : findData ds j with
                        | none => rw [hfj] at hfb; cases hfb
                        | some c =>
                            rw [hfj, Option.map_some'] at hfb
                            by_cases hcd : (c.unique_id == hh.underlying_data) = true
                            · right
                              have hcj : c.unique_id = j := findData_beq hfj
                              refine ⟨h, hh, hGh, hfh, ?_⟩
                              rw [← eq_of_beq hcd]
                              exact hcj
                            · rw [if_neg hcd] at hfb
                              have hcb : c = b := Option.some.inj hfb
                              have hlc : c.last_marked = cur := by
                                rw [hcb]; exact hlb
                              exact Or.inl ⟨c, rfl, hlc⟩
                      · exact Or.inr hreach

/-! Lemmas about the phase-4 sweep. -/

theorem sweep_kept_eq (ds : List GcData) (cur : Nat) :
    ∀ (dataIds : List Nat) (acc : SweepAcc),
      (dataIds.foldl (sweep_step ds cur) acc).kept =
        acc.kept ++ dataIds.filter (fun d =>
          match findData ds d with
          | some a => a.last_marked == cur
          | none => false) := by
  intro dataIds
  induction dataIds with
  | nil => intro acc; simp
  | cons d t ih =>
      intro acc
      rw [List.foldl_cons, ih]
      cases hfd : findData ds d with
      | none => simp [sweep_step, hfd, List.filter_cons]
      | some a =>
          by_cases hlm : (a.last_marked == cur) = true
          · simp [sweep_step, hfd, hlm, List.filter_cons]
          · simp [sweep_step, hfd, hlm, List.filter_cons]

theorem sweep_drops_eq (ds : List GcData) (cur : Nat) :
    ∀ (dataIds : List Nat) (acc : SweepAcc),
      (dataIds.foldl (sweep_step ds cur) acc).drops =
        acc.drops ++ dataIds.filter (fun d =>
          match findData ds d with
          | some a => !(a.last_marked == cur)
          | none => false) := by
  intro dataIds
  induction dataIds with
  | nil => intro acc; simp
  | cons d t ih =>
      intro acc
      rw [List.foldl_cons, ih]
      cases hfd : findData ds d with
      | none => simp [sweep_step, hfd, List.filter_cons]
      | some a =>
          by_cases hlm : (a.last_marked == cur) = true
          · simp [sweep_step, hfd, hlm, List.filter_cons]
          · simp [sweep_step, hfd, hlm, List.filter_cons]

theorem remove_handles_sub :
    ∀ (c : List Nat) (hs : List Nat) (x : Nat),
      x ∈ remove_handles hs c → x ∈ hs := by
  intro c
  induction c with
  | nil => intro hs x hx; exact hx
  | cons h0 t ih =>
      intro hs x hx
      have := ih _ x hx
      exact (List.mem_filter.mp this).1

theorem remove_handles_not_mem :
    ∀ (c : List Nat) (hs : List Nat) (x : Nat),
      x ∈ c → x ∉ remove_handles hs c := by
  intro c
  induction c with
  | nil => intro hs x hx; cases hx
  | cons h0 t ih =>
      intro hs x hx hmem
      rcases List.mem_cons.mp hx with rfl | hx'
      · by_cases hxt : x ∈ t
        · exact ih _ x hxt hmem
        · have hsub : x ∈ hs.filter (fun y => y != x) := remove_handles_sub t _ x hmem
          have := (List.mem_filter.mp hsub).2
          simp at this
      · exact ih _ x hx' hmem

theorem sweep_handles_sub (ds : List GcData) (cur : Nat) :
    ∀ (dataIds : List Nat) (acc : SweepAcc) (x : Nat),
      x ∈ (dataIds.foldl (sweep_step ds cur) acc).handles → x ∈ acc.handles := by
  intro dataIds
  induction dataIds with
  | nil => intro acc x hx; simpa using hx
  | cons d t ih =>
      intro acc x hx
      rw [List.foldl_cons] at hx
      have := ih _ x hx
      unfold sweep_step at this
      split at this
      · exact this
      · split at this
        · exact this
        · exact remove_handles_sub _ _ x this

theorem sweep_drops_mono (ds : List GcData) (cur : Nat) :
    ∀ (dataIds : List Nat) (acc : SweepAcc) (x : Nat),
      x ∈ acc.drops → x ∈ (dataIds.foldl (sweep_step ds cur) acc).drops := by
  intro dataIds
  induction dataIds with
  | nil => intro acc x hx; simpa using hx
  | cons d t ih =>
      intro acc x hx
      rw [List.foldl_cons]
      apply ih
      unfold sweep_step
      split
      · exact hx
      · split
        · exact hx
        · exact List.mem_append_left _ hx

theorem sweep_dead (ds : List GcData) (cur : Nat) :
    ∀ (dataIds : List Nat) (acc : SweepAcc) (d : Nat) (a : GcData),
      d ∈ dataIds → findData ds d = some a → ¬ a.last_marked = cur →
      (∀ x ∈ a.content, x ∉ (dataIds.foldl (sweep_step ds cur) acc).handles) ∧
      d ∈ (dataIds.foldl (sweep_step ds cur) acc).drops := by
  intro dataIds
  induction dataIds with
  | nil => intro acc d a hd; cases hd
  | cons d0 t ih =>
      intro acc d a hd hfd hnm
      rw [List.foldl_cons]
      rcases List.mem_cons.mp hd with rfl | hd'
      · have hbe : (a.last_marked == cur) = false := by
          simp [hnm]
        have hstep : sweep_step ds cur acc d =
            { acc with handles := remove_handles acc.handles a.content,
                       drops := acc.drops ++ [d] } := by
          unfold sweep_step
          split
          · next heq => rw [hfd] at heq; cases heq
          · next aa heq =>
              rw [hfd] at heq
              have haa : a = aa := Option.some.inj heq
              subst haa
              rw [if_neg (by rw [hbe]; exact Bool.false_ne_true)]
        rw [hstep]
        constructor
        · intro x hx hmem
          have := sweep_handles_sub ds cur t _ x hmem
          exact remove_handles_not_mem a.content acc.handles x hx this
        · exact sweep_drops_mono ds cur t _ d (List.mem_append_right _ (by simp))
      · exact ih _ d a hd' hfd hnm

/-! Event-trace helpers for do_collect. -/

theorem do_collect_events (inUse : Nat → Bool) (st : CollectorState) :
    (do_collect inUse st).2 =
      [GcEvent.phase 1]
        ++ (phase1 inUse (st.collection_number + 1) st.data st.gc_datas
              st.gc_handles).events
        ++ [GcEvent.phase 2, GcEvent.phase 3, GcEvent.phase 4,
            GcEvent.releaseRegistryWrite,
            GcEvent.triggerRecord (tracked_data_count (collect inUse st)),
            GcEvent.releaseGcLock]
        ++ (phase1 inUse (st.collection_number + 1) st.data st.gc_datas
              st.gc_handles).warrants.map GcEvent.releaseExclusive := rfl

theorem phase1_events_all_acquire (inUse : Nat → Bool) (cur : Nat)
    (dataIds : List Nat) (ds : List GcData) (hs : List GcHandle) :
    ∀ e ∈ (phase1 inUse cur dataIds ds hs).events,
      ∃ L, e = GcEvent.acquireExclusive L := by
  apply phase1_events_shape
  intro e he
  cases he

/-! Concrete states used by the scenario claims. -/

/-! The claims. -/

/-- C10: check_then_collect returns true exactly when the trigger indicates
a collection on the current allocation count, and in that case the
resulting state is the do_collect result; when it returns false, the
tracked state, and in particular the collection number, the allocation set,
the handle set and the dropper queue, is completely unchanged. -/
theorem c10_check_then_collect_frame (trig : Nat → Nat → Bool)
    (inUse : Nat → Bool) (st : CollectorState) :
    ((check_then_collect trig inUse st).1 = true ↔
      trig st.data_count_after_collection st.data.length = true) ∧
    ((check_then_collect trig inUse st).1 = true →
      (check_then_collect trig inUse st).2 = (do_collect inUse st).1) ∧
    ((check_then_collect trig inUse st).1 = false →
      (check_then_collect trig inUse st).2 = st) := by
  unfold check_then_collect
  by_cases h : trig st.data_count_after_collection st.data.length = true
  · simp [h]
  · simp [h]

/-- C9 counterexample: on the empty initial state, the event trace of
do_collect releases the registry write lock strictly before the
post-collection count is recorded into the trigger, so the claimed order
(trigger update before the registry write lock is dropped) is false. -/
theorem c9_counterexample :
    (do_collect (fun _ => false) initial_state).2 =
      [GcEvent.phase 1, GcEvent.phase 2, GcEvent.phase 3, GcEvent.phase 4,
       GcEvent.releaseRegistryWrite, GcEvent.triggerRecord 0,
       GcEvent.releaseGcLock] ∧
    GcEvent.triggerRecord 0 ∉
      (do_collect (fun _ => false) initial_state).2.takeWhile
        (fun e => e != GcEvent.releaseRegistryWrite) ∧
    GcEvent.triggerRecord 0 ∈ (do_collect (fun _ => false) initial_state).2 ∧
    GcEvent.releaseRegistryWrite ∈ (do_collect (fun _ => false) initial_state).2 := by
  decide

/-- C9 (amended): in phase 5 of do_collect the registry write lock is
released first, then the post-collection allocation count is recorded into
the trigger, and then the gc_lock is released; no trigger record and no
registry write release occurs earlier in the trace. -/
theorem c9_phase5_order (inUse : Nat → Bool) (st : CollectorState) :
    ∃ pre : List GcEvent,
      (do_collect inUse st).2 =
        pre ++ [GcEvent.releaseRegistryWrite,
                GcEvent.triggerRecord (tracked_data_count (collect inUse st)),
                GcEvent.releaseGcLock]
          ++ (phase1 inUse (st.collection_number + 1) st.data st.gc_datas
                st.gc_handles).warrants.map GcEvent.releaseExclusive ∧
      (∀ n, GcEvent.triggerRecord n ∉ pre) ∧
      GcEvent.releaseRegistryWrite ∉ pre ∧
      GcEvent.releaseGcLock ∉ pre := by
  refine ⟨[GcEvent.phase 1]
      ++ (phase1 inUse (st.collection_number + 1) st.data st.gc_datas
            st.gc_handles).events
      ++ [GcEvent.phase 2, GcEvent.phase 3, GcEvent.phase 4], ?_, ?_, ?_, ?_⟩
  · rw [do_collect_events]
    simp [List.append_assoc]
  all_goals {
    first
    | intro n hmem
    | intro hmem
    rcases List.mem_append.mp hmem with hmem' | hmem'
    · rcases List.mem_append.mp hmem' with hmem2 | hmem2
      · simp at hmem2
      · obtain ⟨L, hL⟩ :=
          phase1_events_all_acquire inUse (st.collection_number + 1)
            st.data st.gc_datas st.gc_handles _ hmem2
        exact GcEvent.noConfusion hL
    · simp at hmem'
  }

/-- C8 counterexample: with a single scannable allocation, the exclusive
warrant acquired in phase 1 (on lockout 0) is not released anywhere before
the phase-2 marker; it is only released at the very end of the trace, so
the claim that every phase-1 warrant is released by the time the root set
is computed is false. -/
theorem c8_counterexample :
    GcEvent.acquireExclusive 0 ∈
      (do_collect (fun _ => false) c8_state).2.takeWhile
        (fun e => e != GcEvent.phase 2) ∧
    GcEvent.releaseExclusive 0 ∉
      (do_collect (fun _ => false) c8_state).2.takeWhile
        (fun e => e != GcEvent.phase 2) ∧
    GcEvent.releaseExclusive 0 ∈ (do_collect (fun _ => false) c8_state).2 := by
  decide

/-- C8 (amended): the exclusive warrants acquired in phase 1 stay
outstanding for the whole collection; they are released only at the end of
do_collect, after the sweep, after the registry write lock is dropped and
after the gc_lock is dropped, so a mutator access can be suspended at any
point of the collection, not only during phase 1. -/
theorem c8_warrants_held_to_end (inUse : Nat → Bool) (st : CollectorState) :
    ∃ scans : List GcEvent,
      (do_collect inUse st).2 =
        [GcEvent.phase 1] ++ scans
          ++ [GcEvent.phase 2, GcEvent.phase 3, GcEvent.phase 4,
              GcEvent.releaseRegistryWrite,
              GcEvent.triggerRecord (tracked_data_count (collect inUse st)),
              GcEvent.releaseGcLock]
          ++ (phase1 inUse (st.collection_number + 1) st.data st.gc_datas
                st.gc_handles).warrants.map GcEvent.releaseExclusive ∧
      (∀ e ∈ scans, ∃ L, e = GcEvent.acquireExclusive L) ∧
      (∀ L, GcEvent.releaseExclusive L ∉
        [GcEvent.phase 1] ++ scans
          ++ [GcEvent.phase 2, GcEvent.phase 3, GcEvent.phase 4,
              GcEvent.releaseRegistryWrite,
              GcEvent.triggerRecord (tracked_data_count (collect inUse st)),
              GcEvent.releaseGcLock]) := by
  refine ⟨(phase1 inUse (st.collection_number + 1) st.data st.gc_datas
      st.gc_handles).events, do_collect_events inUse st,
    phase1_events_all_acquire inUse _ _ _ _, ?_⟩
  intro L hmem
  rcases List.mem_append.mp hmem with hmem' | hmem'
  · rcases List.mem_append.mp hmem' with hmem2 | hmem2
    · simp at hmem2
    · obtain ⟨L', hL⟩ :=
        phase1_events_all_acquire inUse (st.collection_number + 1)
          st.data st.gc_datas st.gc_handles _ hmem2
      exact GcEvent.noConfusion hL
  · simp at hmem'

/-- C5: get_data_warrant panics exactly when the deallocated flag of the
handle's allocation is set, otherwise it hands out a shared warrant on the
lockout the handle shares with its allocation, and its trace contains no
registry lock operation; clone_handle panics exactly when the source handle
is not in the registry handle set, and otherwise inserts a freshly minted
handle with the same underlying allocation and the same lockout, leaving
the allocation set untouched. -/
theorem c5_fail_fast (st : CollectorState) (h : GcHandle) (a : GcData)
    (ha : findData st.gc_datas h.underlying_data = some a) :
    ((get_data_warrant st h).1 = WarrantResult.panicked ↔ a.deallocated = true) ∧
    (a.deallocated = false →
      (get_data_warrant st h).1 = WarrantResult.warrant h.lockout) ∧
    (∀ e ∈ (get_data_warrant st h).2,
      e ≠ GcEvent.acquireRegistryWrite ∧ e ≠ GcEvent.acquireRegistryRead) ∧
    (clone_handle st h = none ↔ ¬ h.unique_id ∈ st.handles) ∧
    (∀ st' h', clone_handle st h = some (st', h') →
      h'.underlying_data = h.underlying_data ∧ h'.lockout = h.lockout ∧
      h' ∈ st'.gc_handles ∧ h'.unique_id ∈ st'.handles ∧
      st'.gc_datas = st.gc_datas ∧ st'.data = st.data ∧
      st'.collection_number = st.collection_number) := by
  refine ⟨?_, ?_, ?_, ?_, ?_⟩
  · cases hd : a.deallocated
    · simp [get_data_warrant, ha, hd]
    · simp [get_data_warrant, ha, hd]
  · intro hd
    simp [get_data_warrant, ha, hd]
  · intro e he
    cases hd : a.deallocated <;>
      simp [get_data_warrant, ha, hd] at he <;>
      simp [he]
  · by_cases hc : h.unique_id ∈ st.handles
    · simp [clone_handle, hc]
    · simp [clone_handle, hc]
  · intro st' h' hcl
    by_cases hc : h.unique_id ∈ st.handles
    · rw [clone_handle] at hcl
      rw [if_pos (by simpa using hc)] at hcl
      obtain ⟨hst, hh⟩ := Prod.mk.injEq .. ▸ Option.some.inj hcl
      subst hst
      subst hh
      refine ⟨rfl, rfl, ?_, ?_, rfl, rfl, rfl⟩
      · simp
      · simp
    · rw [clone_handle] at hcl
      rw [if_neg (by simpa using hc)] at hcl
      cases hcl

/-- C5 witness: in the dangling state, accessing the stale handle panics,
and so does cloning it, because it is no longer in the handle set; on a
freshly tracked allocation the access instead yields a shared warrant. -/
theorem c5_fail_fast_witness :
    (get_data_warrant c5_dangling_state c5_dangling_handle).1 =
      WarrantResult.panicked ∧
    clone_handle c5_dangling_state c5_dangling_handle = none :=
  ⟨((c5_fail_fast c5_dangling_state c5_dangling_handle c5_dangling_data
      (by decide)).1).mpr (by decide),
   ((c5_fail_fast c5_dangling_state c5_dangling_handle c5_dangling_data
      (by decide)).2.2.2.1).mpr (by decide)⟩

/-- C3: in the two-node cyclic graph with both outer handles dropped, a
single collection stamps both internal handles non-rooted in phase 1, so
the root set is empty, both allocations are swept and sent to the dropper,
and the live allocation count is zero. -/
theorem c3_cycle_reclaimed :
    tracked_data_count (collect (fun _ => false) c3_state) = 0 ∧
    (collect (fun _ => false) c3_state).data = [] ∧
    (collect (fun _ => false) c3_state).drop_messages = [1, 3] ∧
    roots_of (phase1 (fun _ => false) 2 c3_state.data c3_state.gc_datas
      c3_state.gc_handles).gc_handles c3_state.handles 2 = [] ∧
    (collect (fun _ => false) c3_state).handles = [] := by
  decide

/-- C2: after do_collect with collection number C, the allocation set is
exactly the sublist of the old allocation set whose allocations carry
last_marked equal to C, and every allocation the sweep removed had each
handle discovered by its traversal removed from the handle set, and was
itself enqueued to the dropper. -/
theorem c2_sweep_exact (inUse : Nat → Bool) (st : CollectorState) :
    (collect inUse st).data =
      st.data.filter (fun d =>
        match findData (collect inUse st).gc_datas d with
        | some a => a.last_marked == (collect inUse st).collection_number
        | none => false) ∧
    (∀ d a, d ∈ st.data →
      findData (collect inUse st).gc_datas d = some a →
      ¬ a.last_marked = (collect inUse st).collection_number →
      (∀ x ∈ a.content, x ∉ (collect inUse st).handles) ∧
      d ∈ (collect inUse st).drop_messages) := by
  constructor
  · exact sweep_kept_eq ((do_collect inUse st).1.gc_datas)
      (st.collection_number + 1) st.data ⟨[], st.handles, []⟩
  · intro d a hd hfa hnm
    have hsw := sweep_dead ((do_collect inUse st).1.gc_datas)
      (st.collection_number + 1) st.data ⟨[], st.handles, []⟩ d a hd hfa hnm
    exact ⟨hsw.1, List.mem_append_right _ hsw.2⟩

/-- C2 witness: in the self-loop state, allocation 1 is dead after the
collection; its traversed handle 3 is gone from the handle set and the
allocation was sent to the dropper. -/
theorem c2_sweep_exact_witness :
    3 ∉ (collect (fun _ => false) c2_w_state).handles ∧
    1 ∈ (collect (fun _ => false) c2_w_state).drop_messages :=
  ⟨((c2_sweep_exact (fun _ => false) c2_w_state).2 1 c2_w_data
      (by decide) (by decide) (by decide)).1 3 (by decide),
   ((c2_sweep_exact (fun _ => false) c2_w_state).2 1 c2_w_data
      (by decide) (by decide) (by decide)).2⟩

/-- C4: when phase 1 cannot acquire an allocation's exclusive warrant
because a mutator holds a shared warrant on its lockout, the allocation is
conservatively marked with the current collection number and recorded as
failed, and it is not traversed: a registered handle whose last_non_rooted
changed during phase 1 was stamped by the traversal of some allocation
whose exclusive warrant was acquired, and any registered handle left
unstamped is classified as a root in phase 2.  Consequently, in the
scenario with in-use root R pointing at hidden H and unreachable decoy D
also pointing at H, one collection leaves exactly R and H live and sweeps
D, and after the warrant is released and R dropped a second collection
leaves nothing. -/
theorem c4_in_use_elision :
    (∀ (inUse : Nat → Bool) (st : CollectorState) (d : Nat) (a : GcData),
      d ∈ st.data → findData st.gc_datas d = some a → inUse a.lockout = true →
      d ∈ (phase1 inUse (st.collection_number + 1) st.data st.gc_datas
            st.gc_handles).failed ∧
      findData (phase1 inUse (st.collection_number + 1) st.data st.gc_datas
            st.gc_handles).gc_datas d =
        some { a with last_marked := st.collection_number + 1 }) ∧
    (∀ (inUse : Nat → Bool) (st : CollectorState) (i : Nat) (hh hh' : GcHandle),
      findHandle st.gc_handles i = some hh →
      findHandle (phase1 inUse (st.collection_number + 1) st.data st.gc_datas
            st.gc_handles).gc_handles i = some hh' →
      hh' ≠ hh →
      hh' = { hh with last_non_rooted := st.collection_number + 1 } ∧
      ∃ d a, d ∈ st.data ∧ findData st.gc_datas d = some a ∧ i ∈ a.content ∧
        a.lockout ∈ (phase1 inUse (st.collection_number + 1) st.data st.gc_datas
            st.gc_handles).warrants) ∧
    (∀ (inUse : Nat → Bool) (st : CollectorState) (i : Nat) (hh' : GcHandle),
      i ∈ st.handles →
      findHandle (phase1 inUse (st.collection_number + 1) st.data st.gc_datas
            st.gc_handles).gc_handles i = some hh' →
      hh'.last_non_rooted ≠ st.collection_number + 1 →
      i ∈ roots_of (phase1 inUse (st.collection_number + 1) st.data st.gc_datas
            st.gc_handles).gc_handles st.handles (st.collection_number + 1)) ∧
    tracked_data_count (collect c4_in_use c4_state) = 2 ∧
    (collect c4_in_use c4_state).data = [1, 3] ∧
    (collect c4_in_use c4_state).drop_messages = [5] ∧
    tracked_data_count (collect (fun _ => false)
      (drop_handle (collect c4_in_use c4_state) c4_root_handle)) = 0 := by
  refine ⟨?_, ?_, ?_, by decide, by decide, by decide, by decide⟩
  · intro inUse st d a hd hfa hiu
    exact phase1_inuse inUse (st.collection_number + 1) st.data
      ⟨st.gc_datas, st.gc_handles, [], [], []⟩ d a hd hfa hiu
  · intro inUse st i hh hh' hfh hfh' hne
    exact phase1_stamp_source inUse (st.collection_number + 1) st.data
      ⟨st.gc_datas, st.gc_handles, [], [], []⟩ i hh hh' hfh hfh' hne
  · intro inUse st i hh' hi hfh' hlnr
    unfold roots_of
    rw [List.mem_filter]
    refine ⟨hi, ?_⟩
    simp [hfh', hlnr]

/-- C4 witness: in the in-use-elision scenario the root allocation 1, whose
lockout the mutator holds, is conservatively marked and recorded as failed
by phase 1. -/
theorem c4_in_use_elision_witness :
    1 ∈ (phase1 c4_in_use (c4_state.collection_number + 1) c4_state.data
          c4_state.gc_datas c4_state.gc_handles).failed ∧
    findData (phase1 c4_in_use (c4_state.collection_number + 1) c4_state.data
          c4_state.gc_datas c4_state.gc_handles).gc_datas 1 =
      some { unique_id := 1, content := [7], lockout := 0,
             deallocated := false, last_marked := 2 } :=
  c4_in_use_elision.1 c4_in_use c4_state 1
    { unique_id := 1, content := [7], lockout := 0, deallocated := false,
      last_marked := 0 }
    (by decide) (by decide) (by decide)

theorem clone_n_spec (h : GcHandle) :
    ∀ (n : Nat) (st : CollectorState),
      h.unique_id ∈ st.handles →
      (∀ i ∈ st.handles, i < st.monotonic_counter) →
      ∃ st' clones, clone_n st h n = some (st', clones) ∧
        st'.monotonic_counter = st.monotonic_counter + n ∧
        st'.next_lockout = st.next_lockout ∧
        st'.collection_number = st.collection_number ∧
        st'.gc_datas = st.gc_datas ∧
        st'.data = st.data ∧
        st'.drop_messages = st.drop_messages ∧
        st'.data_count_after_collection = st.data_count_after_collection ∧
        st'.gc_handles = st.gc_handles ++ clones ∧
        st'.handles = st.handles ++ clones.map (fun c => c.unique_id) ∧
        (∀ c ∈ clones, st.monotonic_counter ≤ c.unique_id) ∧
        (clones.map (fun c => c.unique_id)).Nodup := by
  intro n
  induction n with
  | zero =>
      intro st hreg hfresh
      refine ⟨st, [], rfl, by simp, rfl, rfl, rfl, rfl, rfl, rfl, by simp,
        by simp, ?_, by simp⟩
      intro c hc
      cases hc
  | succ n ih =>
      intro st hreg hfresh
      have hcl : clone_handle st h =
          some ({ st with
                    monotonic_counter := st.monotonic_counter + 1,
                    gc_handles := st.gc_handles ++
                      [{ unique_id := st.monotonic_counter,
                         underlying_data := h.underlying_data,
                         lockout := h.lockout, last_non_rooted := 0 }],
                    handles := st.handles ++ [st.monotonic_counter] },
                { unique_id := st.monotonic_counter,
                  underlying_data := h.underlying_data,
                  lockout := h.lockout, last_non_rooted := 0 }) := by
        unfold clone_handle
        rw [if_pos (show st.handles.contains h.unique_id = true by
          simpa using hreg)]
      set st1 : CollectorState :=
        { st with
            monotonic_counter := st.monotonic_counter + 1,
            gc_handles := st.gc_handles ++
              [{ unique_id := st.monotonic_counter,
                 underlying_data := h.underlying_data,
                 lockout := h.lockout, last_non_rooted := 0 }],
            handles := st.handles ++ [st.monotonic_counter] } with hst1
      have hreg1 : h.unique_id ∈ st1.handles :=
        List.mem_append_left _ hreg
      have hfresh1 : ∀ i ∈ st1.handles, i < st1.monotonic_counter := by
        intro i hi
        show i < st.monotonic_counter + 1
        have hi2 : i ∈ st.handles ++ [st.monotonic_counter] := hi
        rcases List.mem_append.mp hi2 with hi' | hi'
        · exact Nat.lt_succ_of_lt (hfresh i hi')
        · simp at hi'
          omega
      obtain ⟨st2, clones1, hcn1, hmc1, hnl1, hcoll1, hgd1, hdata1, hdm1,
        hdcac1, hgh1, hhandles1, hbound1, hnodup1⟩ := ih st1 hreg1 hfresh1
      have hs1mc : st1.monotonic_counter = st.monotonic_counter + 1 := rfl
      have hs1gh : st1.gc_handles = st.gc_handles ++
          [{ unique_id := st.monotonic_counter,
             underlying_data := h.underlying_data,
             lockout := h.lockout, last_non_rooted := 0 }] := rfl
      have hs1h : st1.handles = st.handles ++ [st.monotonic_counter] := rfl
      refine ⟨st2,
        { unique_id := st.monotonic_counter,
          underlying_data := h.underlying_data,
          lockout := h.lockout, last_non_rooted := 0 } :: clones1,
        ?_, ?_, ?_, ?_, ?_, ?_, ?_, ?_, ?_, ?_, ?_, ?_⟩
      · show clone_n st h (n + 1) = _
        simp only [clone_n, hcl, hcn1]
      · rw [hmc1, hs1mc]
        omega
      · rw [hnl1]
      · rw [hcoll1]
      · rw [hgd1]
      · rw [hdata1]
      · rw [hdm1]
      · rw [hdcac1]
      · rw [hgh1, hs1gh]
        simp
      · rw [hhandles1, hs1h]
        simp
      · intro c hc
        rcases List.mem_cons.mp hc with rfl | hc'
        · exact Nat.le_refl _
        · have := hbound1 c hc'
          rw [hs1mc] at this
          omega
      · rw [List.map_cons]
        refine List.nodup_cons.mpr ⟨?_, hnodup1⟩
        intro hmem
        simp only [List.mem_map] at hmem
        obtain ⟨c, hc, hcu⟩ := hmem
        have := hbound1 c hc
        rw [hs1mc] at this
        omega

theorem foldl_drop_fields :
    ∀ (clones : List GcHandle) (s : CollectorState),
      (clones.foldl drop_handle s).monotonic_counter = s.monotonic_counter ∧
      (clones.foldl drop_handle s).next_lockout = s.next_lockout ∧
      (clones.foldl drop_handle s).collection_number = s.collection_number ∧
      (clones.foldl drop_handle s).gc_datas = s.gc_datas ∧
      (clones.foldl drop_handle s).gc_handles = s.gc_handles ∧
      (clones.foldl drop_handle s).data = s.data ∧
      (clones.foldl drop_handle s).drop_messages = s.drop_messages ∧
      (clones.foldl drop_handle s).data_count_after_collection =
        s.data_count_after_collection := by
  intro clones
  induction clones with
  | nil => intro s; exact ⟨rfl, rfl, rfl, rfl, rfl, rfl, rfl, rfl⟩
  | cons c t ih =>
      intro s
      rw [List.foldl_cons]
      exact ih (drop_handle s c)

theorem foldl_drop_handles :
    ∀ (clones : List GcHandle) (s : CollectorState),
      (clones.foldl drop_handle s).handles =
        clones.foldl (fun hs c => hs.filter (fun x => x != c.unique_id))
          s.handles := by
  intro clones
  induction clones with
  | nil => intro s; rfl
  | cons c t ih =>
      intro s
      rw [List.foldl_cons, List.foldl_cons]
      exact ih (drop_handle s c)

theorem filter_fold_restore :
    ∀ (clones : List GcHandle) (base : List Nat),
      (∀ c ∈ clones, ∀ b ∈ base, b ≠ c.unique_id) →
      (clones.map (fun c => c.unique_id)).Nodup →
      clones.foldl (fun hs c => hs.filter (fun x => x != c.unique_id))
        (base ++ clones.map (fun c => c.unique_id)) = base := by
  intro clones
  induction clones with
  | nil => intro base _ _; simp
  | cons c t ih =>
      intro base hdis hnd
      rw [List.map_cons, List.foldl_cons]
      have hstep : (base ++ c.unique_id :: t.map (fun c => c.unique_id)).filter
          (fun x => x != c.unique_id) = base ++ t.map (fun c => c.unique_id) := by
        rw [List.filter_append]
        have h1 : base.filter (fun x => x != c.unique_id) = base := by
          apply List.filter_eq_self.mpr
          intro b hb
          simpa using hdis c (List.mem_cons_self _ _) b hb
        have hcnot : c.unique_id ∉ t.map (fun c => c.unique_id) :=
          (List.nodup_cons.mp hnd).1
        have h2 : (c.unique_id :: t.map (fun c => c.unique_id)).filter
            (fun x => x != c.unique_id) = t.map (fun c => c.unique_id) := by
          rw [List.filter_cons]
          simp only [bne_self_eq_false, Bool.false_eq_true, if_neg,
            not_false_iff]
          apply List.filter_eq_self.mpr
          intro b hb
          have : b ≠ c.unique_id := by
            intro hbc
            rw [hbc] at hb
            exact hcnot hb
          simpa using this
        rw [h1, h2]
      rw [hstep]
      exact ih base (fun c' hc' b hb => hdis c' (List.mem_cons_of_mem _ hc') b hb)
        (List.nodup_cons.mp hnd).2

theorem findHandle_append_not_mem :
    ∀ (hs extra : List GcHandle) (i : Nat),
      (∀ c ∈ extra, c.unique_id ≠ i) →
      findHandle (hs ++ extra) i = findHandle hs i := by
  intro hs extra i hextra
  induction hs with
  | nil =>
      show findHandle extra i = none
      unfold findHandle
      apply List.find?_eq_none.mpr
      intro c hc
      simpa using hextra c hc
  | cons a t ih =>
      show List.find? _ (a :: (t ++ extra)) = List.find? _ (a :: t)
      cases hpa : (a.unique_id == i) with
      | true =>
          rw [List.find?_cons_of_pos (p := fun (b : GcHandle) => b.unique_id == i) _ hpa,
            List.find?_cons_of_pos (p := fun (b : GcHandle) => b.unique_id == i) _ hpa]
      | false =>
          rw [List.find?_cons_of_neg (p := fun (b : GcHandle) => b.unique_id == i) _
            (by show ¬ (a.unique_id == i) = true; rw [hpa]; exact Bool.false_ne_true),
            List.find?_cons_of_neg (p := fun (b : GcHandle) => b.unique_id == i) _
            (by show ¬ (a.unique_id == i) = true; rw [hpa]; exact Bool.false_ne_true)]
          exact ih

/-- C7: cloning a registered handle n times and then dropping all n clones
leaves the registry, that is the collection number, the allocation set with
its records, the handle set with its records, the drop queue and the
trigger baseline, exactly as before, except that the monotonic unique-id
counter advanced by n. -/
theorem c7_clone_drop_roundtrip (st : CollectorState) (h : GcHandle) (n : Nat)
    (hreg : h.unique_id ∈ st.handles)
    (hfresh : ∀ i ∈ st.handles, i < st.monotonic_counter) :
    ∃ st' clones, clone_n st h n = some (st', clones) ∧
      (clones.foldl drop_handle st').collection_number = st.collection_number ∧
      (clones.foldl drop_handle st').data = st.data ∧
      (clones.foldl drop_handle st').gc_datas = st.gc_datas ∧
      (clones.foldl drop_handle st').handles = st.handles ∧
      (∀ i ∈ st.handles,
        findHandle (clones.foldl drop_handle st').gc_handles i =
          findHandle st.gc_handles i) ∧
      (clones.foldl drop_handle st').drop_messages = st.drop_messages ∧
      (clones.foldl drop_handle st').data_count_after_collection =
        st.data_count_after_collection ∧
      (clones.foldl drop_handle st').next_lockout = st.next_lockout ∧
      (clones.foldl drop_handle st').monotonic_counter =
        st.monotonic_counter + n := by
  obtain ⟨st', clones, hcn, hmc, hnl, hcoll, hgd, hdata, hdm, hdcac, hgh,
    hhandles, hbound, hnodup⟩ := clone_n_spec h n st hreg hfresh
  have hdf := foldl_drop_fields clones st'
  refine ⟨st', clones, hcn, ?_, ?_, ?_, ?_, ?_, ?_, ?_, ?_, ?_⟩
  · rw [hdf.2.2.1, hcoll]
  · rw [hdf.2.2.2.2.2.1, hdata]
  · rw [hdf.2.2.2.1, hgd]
  · rw [foldl_drop_handles, hhandles]
    exact filter_fold_restore clones st.handles
      (fun c hc b hb => by
        have h1 := hfresh b hb
        have h2 := hbound c hc
        omega)
      hnodup
  · intro i hi
    rw [hdf.2.2.2.2.1, hgh]
    exact findHandle_append_not_mem st.gc_handles clones i
      (fun c hc => by
        have h1 := hfresh i hi
        have h2 := hbound c hc
        omega)
  · rw [hdf.2.2.2.2.2.2.1, hdm]
  · rw [hdf.2.2.2.2.2.2.2, hdcac]
  · rw [hdf.2.1, hnl]
  · rw [hdf.1, hmc]

/-- C7 witness: cloning the registered handle twice and dropping both
clones restores the registry of the witness state, with the counter
advanced by two. -/
theorem c7_clone_drop_roundtrip_witness :
    ∃ st' clones, clone_n c7_w_state c7_w_handle 2 = some (st', clones) ∧
      (clones.foldl drop_handle st').collection_number =
        c7_w_state.collection_number ∧
      (clones.foldl drop_handle st').data = c7_w_state.data ∧
      (clones.foldl drop_handle st').gc_datas = c7_w_state.gc_datas ∧
      (clones.foldl drop_handle st').handles = c7_w_state.handles ∧
      (∀ i ∈ c7_w_state.handles,
        findHandle (clones.foldl drop_handle st').gc_handles i =
          findHandle c7_w_state.gc_handles i) ∧
      (clones.foldl drop_handle st').drop_messages = c7_w_state.drop_messages ∧
      (clones.foldl drop_handle st').data_count_after_collection =
        c7_w_state.data_count_after_collection ∧
      (clones.foldl drop_handle st').next_lockout = c7_w_state.next_lockout ∧
      (clones.foldl drop_handle st').monotonic_counter =
        c7_w_state.monotonic_counter + 2 :=
  c7_clone_drop_roundtrip c7_w_state c7_w_handle 2 (by decide) (by decide)

/-- The data-store evolution across a whole collection: phase 1 composed
with the mark DFS; the sweep does not touch the object stores. -/
theorem collect_data_evolve (inUse : Nat → Bool) (st : CollectorState) :
    DataEvolve (st.collection_number + 1) st.gc_datas
      (collect inUse st).gc_datas := by
  have h1 := (phase1_evolve inUse (st.collection_number + 1) st.data
    ⟨st.gc_datas, st.gc_handles, [], [], []⟩).1
  have h2 := mark_dfs_evolve
    (phase1 inUse (st.collection_number + 1) st.data st.gc_datas
      st.gc_handles).gc_handles
    (st.collection_number + 1)
    (dfs_fuel (roots_of (phase1 inUse (st.collection_number + 1) st.data
        st.gc_datas st.gc_handles).gc_handles st.handles
        (st.collection_number + 1))
      (phase1 inUse (st.collection_number + 1) st.data st.gc_datas
        st.gc_handles).gc_datas)
    (phase1 inUse (st.collection_number + 1) st.data st.gc_datas
      st.gc_handles).gc_datas
    (roots_of (phase1 inUse (st.collection_number + 1) st.data st.gc_datas
        st.gc_handles).gc_handles st.handles
      (st.collection_number + 1)).reverse
  exact dataEvolve_trans h1 h2

/-- The handle-store evolution across a whole collection: only phase 1
writes handle records. -/
theorem collect_handle_evolve (inUse : Nat → Bool) (st : CollectorState) :
    HandleEvolve (st.collection_number + 1) st.gc_handles
      (collect inUse st).gc_handles :=
  (phase1_evolve inUse (st.collection_number + 1) st.data
    ⟨st.gc_datas, st.gc_handles, [], [], []⟩).2

/-- C6: across each tracked operation the counters only move forward.
Track, clone and drop leave every existing record untouched (track and
clone only insert records whose counters are zero, which respects the
bound, and drop only shrinks the handle set); do_collect rewrites
last_marked and last_non_rooted fields only to the new, larger collection
number; and in every case the bound that both counters stay at most the
collection number is preserved. -/
theorem c6_counters_monotone (st : CollectorState) (inUse : Nat → Bool)
    (content : List Nat) (h : GcHandle)
    (hm : ∀ a ∈ st.gc_datas, a.last_marked ≤ st.collection_number)
    (hn : ∀ hh ∈ st.gc_handles, hh.last_non_rooted ≤ st.collection_number) :
    (∀ a ∈ (track_data st content).1.gc_datas,
      a.last_marked ≤ (track_data st content).1.collection_number) ∧
    (∀ hh ∈ (track_data st content).1.gc_handles,
      hh.last_non_rooted ≤ (track_data st content).1.collection_number) ∧
    (∀ a ∈ st.gc_datas, a ∈ (track_data st content).1.gc_datas) ∧
    (∀ hh ∈ st.gc_handles, hh ∈ (track_data st content).1.gc_handles) ∧
    (∀ st' h', clone_handle st h = some (st', h') →
      (∀ a ∈ st'.gc_datas, a.last_marked ≤ st'.collection_number) ∧
      (∀ hh ∈ st'.gc_handles, hh.last_non_rooted ≤ st'.collection_number) ∧
      st'.gc_datas = st.gc_datas ∧
      (∀ hh ∈ st.gc_handles, hh ∈ st'.gc_handles)) ∧
    ((drop_handle st h).gc_datas = st.gc_datas ∧
     (drop_handle st h).gc_handles = st.gc_handles ∧
     (drop_handle st h).collection_number = st.collection_number) ∧
    (∀ a ∈ (collect inUse st).gc_datas,
      a.last_marked ≤ (collect inUse st).collection_number) ∧
    (∀ hh ∈ (collect inUse st).gc_handles,
      hh.last_non_rooted ≤ (collect inUse st).collection_number) ∧
    (∀ j a a', findData st.gc_datas j = some a →
      findData (collect inUse st).gc_datas j = some a' →
      a.last_marked ≤ a'.last_marked) ∧
    (∀ j hh hh', findHandle st.gc_handles j = some hh →
      findHandle (collect inUse st).gc_handles j = some hh' →
      hh.last_non_rooted ≤ hh'.last_non_rooted) ∧
    st.collection_number ≤ (collect inUse st).collection_number := by
  refine ⟨?_, ?_, ?_, ?_, ?_, ⟨rfl, rfl, rfl⟩, ?_, ?_, ?_, ?_, ?_⟩
  · intro a ha
    have ha2 : a ∈ st.gc_datas ++
        [{ unique_id := st.monotonic_counter, content := content,
           lockout := st.next_lockout, deallocated := false,
           last_marked := 0 }] := ha
    rcases List.mem_append.mp ha2 with ha' | ha'
    · exact hm a ha'
    · simp at ha'
      subst ha'
      exact Nat.zero_le _
  · intro hh hhm
    have hh2 : hh ∈ st.gc_handles ++
        [{ unique_id := st.monotonic_counter + 1,
           underlying_data := st.monotonic_counter,
           lockout := st.next_lockout, last_non_rooted := 0 }] := hhm
    rcases List.mem_append.mp hh2 with hh' | hh'
    · exact hn hh hh'
    · simp at hh'
      subst hh'
      exact Nat.zero_le _
  · intro a ha
    exact List.mem_append_left _ ha
  · intro hh hhm
    exact List.mem_append_left _ hhm
  · intro st' h' hcl
    unfold clone_handle at hcl
    by_cases hc : st.handles.contains h.unique_id = true
    · rw [if_pos hc] at hcl
      obtain ⟨hst, _⟩ := Prod.mk.injEq .. ▸ Option.some.inj hcl
      subst hst
      refine ⟨hm, ?_, rfl, ?_⟩
      · intro hh hhm
        have hh2 : hh ∈ st.gc_handles ++
            [{ unique_id := st.monotonic_counter,
               underlying_data := h.underlying_data,
               lockout := h.lockout, last_non_rooted := 0 }] := hhm
        rcases List.mem_append.mp hh2 with hh' | hh'
        · exact hn hh hh'
        · simp at hh'
          subst hh'
          exact Nat.zero_le _
      · intro hh hhm
        exact List.mem_append_left _ hhm
    · rw [if_neg hc] at hcl
      cases hcl
  · intro a ha
    obtain ⟨a0, ha0, hrel⟩ := dataEvolve_mem_right (collect_data_evolve inUse st) a ha
    show a.last_marked ≤ st.collection_number + 1
    rcases hrel with rfl | rfl
    · exact Nat.le_succ_of_le (hm a ha0)
    · exact Nat.le_refl _
  · intro hh hhm
    obtain ⟨h0, hh0, hrel⟩ :=
      handleEvolve_mem_right (collect_handle_evolve inUse st) hh hhm
    show hh.last_non_rooted ≤ st.collection_number + 1
    rcases hrel with rfl | rfl
    · exact Nat.le_succ_of_le (hn hh hh0)
    · exact Nat.le_refl _
  · intro j a a' hfa hfa'
    rcases dataEvolve_find (collect_data_evolve inUse st) j with
      ⟨hno, _⟩ | ⟨a0, a1, hf0, hf1, _, _, _, _, hrel⟩
    · rw [hfa] at hno; cases hno
    · rw [hfa] at hf0
      rw [hfa'] at hf1
      obtain rfl := Option.some.inj hf0
      obtain rfl := Option.some.inj hf1
      rcases hrel with heq | heq
      · rw [heq]
      · rw [heq]
        have := hm a (List.mem_of_find?_eq_some hfa)
        omega
  · intro j hh hh' hfh hfh'
    rcases handleEvolve_find (collect_handle_evolve inUse st) j with
      ⟨hno, _⟩ | ⟨h0, h1, hf0, hf1, _, _, _, hrel⟩
    · rw [hfh] at hno; cases hno
    · rw [hfh] at hf0
      rw [hfh'] at hf1
      obtain rfl := Option.some.inj hf0
      obtain rfl := Option.some.inj hf1
      rcases hrel with heq | heq
      · rw [heq]
      · rw [heq]
        have := hn hh (List.mem_of_find?_eq_some hfh)
        omega
  · exact Nat.le_succ _

/-- C6 witness: on the one-allocation state, the allocation's last_marked
moves from 0 to the new collection number 2 across a collection, and the
collection number itself does not decrease. -/
theorem c6_counters_monotone_witness :
    c6_w_data_before.last_marked ≤ c6_w_data_after.last_marked ∧
    c6_w_state.collection_number ≤
      (collect (fun _ => false) c6_w_state).collection_number :=
  ⟨(c6_counters_monotone c6_w_state (fun _ => false) [] c6_w_handle
      (by decide) (by decide)).2.2.2.2.2.2.2.2.1 1
      c6_w_data_before c6_w_data_after (by decide) (by decide),
   (c6_counters_monotone c6_w_state (fun _ => false) [] c6_w_handle
      (by decide) (by decide)).2.2.2.2.2.2.2.2.2.2⟩

/-- C1: every allocation that is still in the allocation set at the end of
a collection either had its exclusive warrant acquisition fail during
phase 1 (it was conservatively marked because a mutator held a warrant), or
is transitively reachable, through the traversal thunks of the pre-
collection heap, from a root handle: a registered handle whose
last_non_rooted was not overwritten with the current collection number
during phase 1, which, by the accompanying characterization, is exactly a
handle whose record phase 1 left untouched. -/
theorem c1_live_rooted_or_in_use (inUse : Nat → Bool) (st : CollectorState)
    (hm : ∀ a ∈ st.gc_datas, a.last_marked ≤ st.collection_number)
    (hn : ∀ hh ∈ st.gc_handles, hh.last_non_rooted ≤ st.collection_number) :
    (∀ d ∈ (collect inUse st).data,
      d ∈ (phase1 inUse (st.collection_number + 1) st.data st.gc_datas
            st.gc_handles).failed ∨
      ReachesAllocation st.gc_datas st.gc_handles
        (roots_of (phase1 inUse (st.collection_number + 1) st.data st.gc_datas
            st.gc_handles).gc_handles st.handles (st.collection_number + 1))
        d) ∧
    (∀ i hh hh', i ∈ st.handles →
      findHandle st.gc_handles i = some hh →
      findHandle (phase1 inUse (st.collection_number + 1) st.data st.gc_datas
          st.gc_handles).gc_handles i = some hh' →
      (i ∈ roots_of (phase1 inUse (st.collection_number + 1) st.data
          st.gc_datas st.gc_handles).gc_handles st.handles
          (st.collection_number + 1) ↔ hh' = hh)) := by
  have hhe : HandleEvolve (st.collection_number + 1) st.gc_handles
      (phase1 inUse (st.collection_number + 1) st.data st.gc_datas
        st.gc_handles).gc_handles :=
    (phase1_evolve inUse (st.collection_number + 1) st.data
      ⟨st.gc_datas, st.gc_handles, [], [], []⟩).2
  have hde : DataEvolve (st.collection_number + 1) st.gc_datas
      (phase1 inUse (st.collection_number + 1) st.data st.gc_datas
        st.gc_handles).gc_datas :=
    (phase1_evolve inUse (st.collection_number + 1) st.data
      ⟨st.gc_datas, st.gc_handles, [], [], []⟩).1
  constructor
  · intro d hd
    -- name the pieces of the collection
    have hd2 : d ∈ st.data.filter (fun x =>
        match findData ((do_collect inUse st).1.gc_datas) x with
        | some a => a.last_marked == (st.collection_number + 1)
        | none => false) := by
      have hkept := sweep_kept_eq ((do_collect inUse st).1.gc_datas)
        (st.collection_number + 1) st.data ⟨[], st.handles, []⟩
      have hd1 : d ∈ (List.foldl
          (sweep_step ((do_collect inUse st).1.gc_datas)
            (st.collection_number + 1))
          ⟨[], st.handles, []⟩ st.data).kept := hd
      rw [hkept] at hd1
      simpa using hd1
    have hdpred := (List.mem_filter.mp hd2).2
    cases hfd3 : findData ((do_collect inUse st).1.gc_datas) d with
    | none => rw [hfd3] at hdpred; cases hdpred
    | some a3 =>
        rw [hfd3] at hdpred
        have hlm3 : a3.last_marked = st.collection_number + 1 := by
          simpa using hdpred
        -- the DFS soundness argument over the reachability predicate
        have hGclosed : ∀ h hh a h2,
            ReachableHandle st.gc_datas st.gc_handles
              (roots_of (phase1 inUse (st.collection_number + 1) st.data
                  st.gc_datas st.gc_handles).gc_handles st.handles
                (st.collection_number + 1)) h →
            findHandle (phase1 inUse (st.collection_number + 1) st.data
                st.gc_datas st.gc_handles).gc_handles h = some hh →
            findData st.gc_datas hh.underlying_data = some a →
            h2 ∈ a.content →
            ReachableHandle st.gc_datas st.gc_handles
              (roots_of (phase1 inUse (st.collection_number + 1) st.data
                  st.gc_datas st.gc_handles).gc_handles st.handles
                (st.collection_number + 1)) h2 := by
          intro h hh a h2 hG hfh hfa hc
          rcases handleEvolve_find hhe h with ⟨_, hn2⟩ | ⟨h0, hh1, hf0, hf1, _, hud, _, _⟩
          · rw [hfh] at hn2; cases hn2
          · have hh1e : hh1 = hh := by
              rw [hf1] at hfh
              exact Option.some.inj hfh
            subst hh1e
            refine ReachableHandle.through h h0 a h2 hG hf0 ?_ hc
            rw [← hud]
            exact hfa
        have hroots : ∀ x ∈ (roots_of (phase1 inUse (st.collection_number + 1)
            st.data st.gc_datas st.gc_handles).gc_handles st.handles
            (st.collection_number + 1)).reverse,
            ReachableHandle st.gc_datas st.gc_handles
              (roots_of (phase1 inUse (st.collection_number + 1) st.data
                  st.gc_datas st.gc_handles).gc_handles st.handles
                (st.collection_number + 1)) x :=
          fun x hx => ReachableHandle.root x (List.mem_reverse.mp hx)
        have hmark := mark_dfs_marks
          (phase1 inUse (st.collection_number + 1) st.data st.gc_datas
            st.gc_handles).gc_handles
          (st.collection_number + 1)
          (ReachableHandle st.gc_datas st.gc_handles
            (roots_of (phase1 inUse (st.collection_number + 1) st.data
                st.gc_datas st.gc_handles).gc_handles st.handles
              (st.collection_number + 1)))
          st.gc_datas hGclosed
          (dfs_fuel (roots_of (phase1 inUse (st.collection_number + 1) st.data
              st.gc_datas st.gc_handles).gc_handles st.handles
              (st.collection_number + 1))
            (phase1 inUse (st.collection_number + 1) st.data st.gc_datas
              st.gc_handles).gc_datas)
          (phase1 inUse (st.collection_number + 1) st.data st.gc_datas
            st.gc_handles).gc_datas
          (roots_of (phase1 inUse (st.collection_number + 1) st.data
              st.gc_datas st.gc_handles).gc_handles st.handles
            (st.collection_number + 1)).reverse
          hde hroots d a3 hfd3 hlm3
        rcases hmark with ⟨a1, hfa1, hlm1⟩ | ⟨h, hh, hG, hfh, hud⟩
        · rcases phase1_marked inUse (st.collection_number + 1) st.data
            ⟨st.gc_datas, st.gc_handles, [], [], []⟩ d a1 hfa1 hlm1 with
            ⟨a0, hfa0, hlm0⟩ | hfail
          · exfalso
            have hmem := List.mem_of_find?_eq_some hfa0
            have := hm a0 hmem
            omega
          · exact Or.inl hfail
        · right
          rcases handleEvolve_find hhe h with ⟨_, hn2⟩ | ⟨h0, hh1, hf0, hf1, _, hud0, _, _⟩
          · rw [hfh] at hn2; cases hn2
          · have hh1e : hh1 = hh := by
              rw [hf1] at hfh
              exact Option.some.inj hfh
            subst hh1e
            refine ⟨h, h0, hG, hf0, ?_⟩
            rw [← hud0]
            exact hud
  · intro i hh hh' hi hfh hfh'
    constructor
    · intro hroot
      unfold roots_of at hroot
      have hpred := (List.mem_filter.mp hroot).2
      rw [hfh'] at hpred
      have hne : hh'.last_non_rooted ≠ st.collection_number + 1 := by
        simpa using hpred
      rcases handleEvolve_find hhe i with ⟨_, hn2⟩ | ⟨h0, h1, hf0, hf1, hu, hud, hlk, hrel⟩
      · rw [hfh'] at hn2; cases hn2
      · rw [hfh] at hf0
        rw [hfh'] at hf1
        obtain rfl := Option.some.inj hf0
        obtain rfl := Option.some.inj hf1
        rcases hrel with heq | heq
        · cases hh with
          | mk u1 ud1 l1 lnr1 =>
              cases hh' with
              | mk u2 ud2 l2 lnr2 =>
                  simp only at hu hud hlk heq
                  simp [hu, hud, hlk, heq]
        · exact absurd heq hne
    · intro heq
      subst heq
      unfold roots_of
      rw [List.mem_filter]
      refine ⟨hi, ?_⟩
      have hb : hh'.last_non_rooted ≤ st.collection_number :=
        hn hh' (List.mem_of_find?_eq_some hfh)
      have hne : hh'.last_non_rooted ≠ st.collection_number + 1 := by omega
      simp [hfh', hne]

/-- C1 witness: in the one-allocation state the surviving allocation 1 is
either conservatively marked or reachable from a root handle; here the
mutator-held handle 2 is the root that reaches it. -/
theorem c1_live_rooted_or_in_use_witness :
    1 ∈ (phase1 (fun _ => false) (c1_w_state.collection_number + 1)
          c1_w_state.data c1_w_state.gc_datas c1_w_state.gc_handles).failed ∨
    ReachesAllocation c1_w_state.gc_datas c1_w_state.gc_handles
      (roots_of (phase1 (fun _ => false) (c1_w_state.collection_number + 1)
          c1_w_state.data c1_w_state.gc_datas c1_w_state.gc_handles).gc_handles
        c1_w_state.handles (c1_w_state.collection_number + 1)) 1 :=
  (c1_live_rooted_or_in_use (fun _ => false) c1_w_state
    (by decide) (by decide)).1 1 (by decide)

end Shredder